import Mathlib

/-! GammaRay `ProblemCollector`

A shallow embedding of `core/problemcollector.cpp`: the ordered problem registry
(`addProblem`, `removeProblem`, `requestScan`) and the scan-activity tracker
(`reportScanStarted`, `reportScanFinished`, `maybeEmitScansFinished`).

Qt signals are modelled as values of `Signal`; every operation returns the new
collector together with the list of signals it emitted, in emission order. `Q_ASSERT` is
active only in a build without `QT_NO_DEBUG`, so the operations that reach it take the
build as an argument.
-/

namespace GammaRay

/-! ## Data model -/

/-- Modelled from the spec: the finding-category tag of a problem. The header that
declares `Problem::FindingCategory` is not among the sources; the code only ever
compares the tag with `Problem::Scan`, and the spec names the other findings "ad hoc". -/
inductive FindingCategory where
  | Scan
  | Adhoc
  deriving DecidableEq, Repr

/-- Modelled from the spec: the `Problem` record (its header is not among the sources).
It has a string identifier, a finding-category tag and further descriptive fields, here
a single `description`; equality is full-value equality. -/
structure Problem where
  problemId : String
  findingCategory : FindingCategory
  description : String
  deriving DecidableEq, Repr

/-- The signals of `ProblemCollector`, with the arguments they are emitted with.
`aboutToRemoveProblems` carries `(first, count)`; the count defaults to `1`. -/
inductive Signal where
  | problemScanRequested
  | aboutToAddProblem (row : Int)
  | problemAdded
  | aboutToRemoveProblems (first : Int) (count : Int)
  | problemsRemoved
  | problemScansFinished
  deriving DecidableEq, Repr

/-- The part of a `QTimer` the collector uses: whether it is single-shot, its interval in
milliseconds, and whether it is currently running (a timeout is pending). -/
structure QTimer where
  singleShot : Bool
  interval : Nat
  active : Bool
  deriving DecidableEq, Repr

/-- `QTimer::start()`: (re)starts the timer. -/
def QTimer.start (t : QTimer) : QTimer := { t with active := true }

/-- `QTimer::stop()`: cancels a pending timeout. -/
def QTimer.stop (t : QTimer) : QTimer := { t with active := false }

/-- The timer firing: a single-shot timer is no longer running afterwards. -/
def QTimer.fire (t : QTimer) : QTimer :=
  if t.singleShot then { t with active := false } else t

/-- The members of `ProblemCollector`. -/
structure ProblemCollector where
  m_problems : List Problem
  m_runningScanCount : Int
  m_reportFinishedTimer : QTimer
  deriving DecidableEq, Repr

/-- `ProblemCollector::ProblemCollector`: no problems, no running scan, a stopped
single-shot timer of 10 ms. -/
def ProblemCollector.create : ProblemCollector :=
  { m_problems := []
    m_runningScanCount := 0
    m_reportFinishedTimer := { singleShot := true, interval := 10, active := false } }

/-- `ProblemCollector::problems`. -/
def ProblemCollector.problems (self : ProblemCollector) : List Problem :=
  self.m_problems

/-! ## `requestScan` -/

/-- The local state of the loop in `requestScan`: the vector being edited, the two
iterators as indices from `begin()`, and the signals emitted so far. -/
structure ScanLoop where
  m_problems : List Problem
  firstToDeleteIt : Nat
  it : Nat
  emitted : List Signal
  deriving DecidableEq, Repr

/-- `QVector::erase(first, last)` on indices: removes the elements in `[first, last)`. -/
def eraseRange (l : List Problem) (first last : Nat) : List Problem :=
  l.take first ++ l.drop last

/-- `it->findingCategory == Problem::Scan`, false when `it` is out of range. -/
def isScanAt (l : List Problem) (i : Nat) : Bool :=
  match l.get? i with
  | some p => decide (p.findingCategory = FindingCategory.Scan)
  | none => false

/-- One iteration of the `while (true)` body of `requestScan`; `none` is `break`. -/
def requestScanStep (s : ScanLoop) : Option ScanLoop :=
  if s.it ≠ s.m_problems.length ∧ isScanAt s.m_problems s.it = true then
    some { s with it := s.it + 1 }
  else if s.firstToDeleteIt ≠ s.it then
    let firstRow : Int := (s.firstToDeleteIt : Int)
    let count : Int := (s.it : Int) - firstRow
    some { m_problems := eraseRange s.m_problems s.firstToDeleteIt s.it
           firstToDeleteIt := s.firstToDeleteIt
           it := s.firstToDeleteIt
           emitted := s.emitted ++
             [Signal.aboutToRemoveProblems firstRow count, Signal.problemsRemoved] }
  else if s.it ≠ s.m_problems.length then
    some { s with it := s.it + 1, firstToDeleteIt := s.firstToDeleteIt + 1 }
  else
    none

/-- The `while (true)` loop of `requestScan`, run for at most `fuel` iterations;
`none` when the fuel runs out before the loop breaks. -/
def requestScanLoop : Nat → ScanLoop → Option ScanLoop
  | 0, _ => none
  | fuel + 1, s =>
    match requestScanStep s with
    | none => some s
    | some s' => requestScanLoop fuel s'

/-- `ProblemCollector::requestScan` with an explicit iteration budget. -/
def requestScanFuel (fuel : Nat) (self : ProblemCollector) :
    Option (ProblemCollector × List Signal) :=
  match requestScanLoop fuel
      { m_problems := self.m_problems, firstToDeleteIt := 0, it := 0, emitted := [] } with
  | none => none
  | some s =>
    some ({ self with m_problems := s.m_problems },
      s.emitted ++ [Signal.problemScanRequested])

/-- `ProblemCollector::requestScan`; the budget `2 * size + 2` is never exhausted. -/
def requestScan (self : ProblemCollector) : Option (ProblemCollector × List Signal) :=
  requestScanFuel (2 * self.m_problems.length + 2) self

/-! ## `addProblem`, `removeProblem` -/

/-- `ProblemCollector::addProblem`. -/
def addProblem (self : ProblemCollector) (problem : Problem) :
    ProblemCollector × List Signal :=
  if problem ∈ self.m_problems then
    (self, [])
  else
    ({ self with m_problems := self.m_problems ++ [problem] },
      [Signal.aboutToAddProblem (self.m_problems.length : Int), Signal.problemAdded])

/-- `ProblemCollector::removeProblem`. -/
def removeProblem (self : ProblemCollector) (problemId : String) :
    ProblemCollector × List Signal :=
  match self.m_problems.findIdx? (fun problem => problem.problemId == problemId) with
  | none => (self, [])
  | some row =>
    ({ self with m_problems := self.m_problems.eraseIdx row },
      [Signal.aboutToRemoveProblems (row : Int) 1, Signal.problemsRemoved])

/-! ## Scan-activity tracker -/

/-- `ProblemCollector::reportScanStarted`. -/
def reportScanStarted (self : ProblemCollector) : ProblemCollector × List Signal :=
  ({ self with
      m_runningScanCount := self.m_runningScanCount + 1
      m_reportFinishedTimer := self.m_reportFinishedTimer.stop }, [])

/-- How the program was compiled, as far as `Q_ASSERT` is concerned: with `QT_NO_DEBUG`
defined (`release`) or not (`debug`). -/
inductive QtBuild where
  | debug
  | release
  deriving DecidableEq, Repr

/-- Qt's `Q_ASSERT(cond)`: it does nothing when `QT_NO_DEBUG` is defined; otherwise a false
condition is fatal. `none` is the fatal abort, `some ()` is execution going on. -/
def Q_ASSERT (build : QtBuild) (cond : Bool) : Option Unit :=
  match build with
  | QtBuild.release => some ()
  | QtBuild.debug => if cond then some () else none

/-- `ProblemCollector::reportScanFinished`: the assertion, then the unguarded decrement,
then the timer start when the count has reached zero. `none` is the abort of a failed
assertion. -/
def reportScanFinished (build : QtBuild) (self : ProblemCollector) :
    Option (ProblemCollector × List Signal) :=
  match Q_ASSERT build (decide (self.m_runningScanCount > 0)) with
  | none => none
  | some _ =>
    let self' := { self with m_runningScanCount := self.m_runningScanCount - 1 }
    if self'.m_runningScanCount = 0 then
      some ({ self' with m_reportFinishedTimer := self'.m_reportFinishedTimer.start }, [])
    else
      some (self', [])

/-- `ProblemCollector::maybeEmitScansFinished`. -/
def maybeEmitScansFinished (self : ProblemCollector) : ProblemCollector × List Signal :=
  if self.m_runningScanCount = 0 then
    (self, [Signal.problemScansFinished])
  else
    (self, [])

/-- The timer's `timeout()` reaching the connected slot: possible only while the timer is
running; the timer fires and `maybeEmitScansFinished` runs. -/
def timerTimeout (self : ProblemCollector) : Option (ProblemCollector × List Signal) :=
  if self.m_reportFinishedTimer.active = true then
    some (maybeEmitScansFinished
      { self with m_reportFinishedTimer := self.m_reportFinishedTimer.fire })
  else
    none

/-! ## Call sequences -/

/-- The calls a client (or the event loop) can make on the collector. -/
inductive Call where
  | addProblem (problem : Problem)
  | removeProblem (problemId : String)
  | requestScan
  | reportScanStarted
  | reportScanFinished
  | timerTimeout
  deriving DecidableEq, Repr

/-- Performs one call in a program compiled as `build`; `none` when the call aborts or
cannot happen. -/
def Call.exec (build : QtBuild) (self : ProblemCollector) :
    Call → Option (ProblemCollector × List Signal)
  | Call.addProblem problem => some (GammaRay.addProblem self problem)
  | Call.removeProblem problemId => some (GammaRay.removeProblem self problemId)
  | Call.requestScan => GammaRay.requestScan self
  | Call.reportScanStarted => some (GammaRay.reportScanStarted self)
  | Call.reportScanFinished => GammaRay.reportScanFinished build self
  | Call.timerTimeout => GammaRay.timerTimeout self

/-- Performs a sequence of calls from `self`, collecting the emitted signals in order. -/
def runCalls (build : QtBuild) (self : ProblemCollector) :
    List Call → Option (ProblemCollector × List Signal)
  | [] => some (self, [])
  | c :: cs =>
    match c.exec build self with
    | none => none
    | some (self', sigs) =>
      match runCalls build self' cs with
      | none => none
      | some (selfEnd, sigsRest) => some (selfEnd, sigs ++ sigsRest)

/-- The calls that act on the problem registry. -/
def Call.isRegistryCall : Call → Bool
  | Call.addProblem _ => true
  | Call.removeProblem _ => true
  | Call.requestScan => true
  | _ => false

/-- Alternating `reportScanStarted`, `reportScanFinished`, `n` times. -/
def startFinishPairs : Nat → List Call
  | 0 => []
  | n + 1 => Call.reportScanStarted :: Call.reportScanFinished :: startFinishPairs n

/-! ## Specification-level notions for `requestScan` -/

/-- Whether a problem is tagged `Scan`. -/
def Problem.isScan (p : Problem) : Bool :=
  decide (p.findingCategory = FindingCategory.Scan)

/-- The problems that survive a purge: the filter by "category is not `Scan`". -/
def withoutScan (l : List Problem) : List Problem :=
  l.filter (fun p => !p.isScan)

/-- The pair of signals of one bulk removal. -/
def removalPair (first count : Int) : List Signal :=
  [Signal.aboutToRemoveProblems first count, Signal.problemsRemoved]

/-- The removal signals for a pending run of `r` elements starting at row `a`
(nothing when no run is pending). -/
def pendingFlush (a r : Nat) : List Signal :=
  if r = 0 then [] else removalPair (a : Int) (r : Int)

/-- The removal signals of a purge that has `a` surviving elements behind it, a pending
run of `r` Scan-tagged elements, and the elements `l` still to be visited. -/
def purgeSignals : Nat → Nat → List Problem → List Signal
  | a, r, [] => pendingFlush a r
  | a, r, p :: l =>
    if p.isScan then purgeSignals a (r + 1) l
    else pendingFlush a r ++ purgeSignals (a + 1) 0 l

/-- Index `i` begins a maximal run of Scan-tagged elements of `l`: the element at `i` is
Scan-tagged and the element right before it, if there is one, is not. -/
def startsScanRun (l : List Problem) (i : Nat) : Bool :=
  isScanAt l i && (i == 0 || !isScanAt l (i - 1))

/-- The number of consecutive Scan-tagged elements of `l` from index `i` on. -/
def scanRunLength (l : List Problem) (i : Nat) : Nat :=
  ((l.drop i).takeWhile Problem.isScan).length

/-- The maximal contiguous runs of Scan-tagged elements of `l`, from left to right, each
as (index of its first element, its length). -/
def maximalScanRuns (l : List Problem) : List (Nat × Nat) :=
  (List.range l.length).filterMap fun i =>
    if startsScanRun l i = true then some (i, scanRunLength l i) else none

/-- The number of elements of `l` before index `i` that are not Scan-tagged. -/
def nonScanBefore (l : List Problem) (i : Nat) : Nat :=
  (withoutScan (l.take i)).length

/-- The removal notifications the spec promises for `l`: one per maximal Scan run, with
`first` the number of non-Scan elements before the run and `count` the run's length. -/
def expectedRemovals (l : List Problem) : List (Int × Int) :=
  (maximalScanRuns l).map fun run => ((nonScanBefore l run.1 : Int), (run.2 : Int))

/-- The `(first, count)` arguments of the `aboutToRemoveProblems` signals in `sigs`,
in emission order. -/
def removalNotifications (sigs : List Signal) : List (Int × Int) :=
  sigs.filterMap fun sig =>
    match sig with
    | Signal.aboutToRemoveProblems first count => some (first, count)
    | _ => none

/-- The signal sequence made of one removal pair per notification. -/
def removalSignals (runs : List (Int × Int)) : List Signal :=
  runs.flatMap fun run => removalPair run.1 run.2

/-- The runs of `l` as `(first, count)` when `l` follows `kept` surviving elements and an
element that is Scan-tagged iff `prevScan`: the index-based description, relative to a
context. `scanRunsAfter false 0` is the description of a whole sequence. -/
def scanRunsAfter (prevScan : Bool) (kept : Nat) (l : List Problem) : List (Int × Int) :=
  (List.range l.length).filterMap fun i =>
    if (isScanAt l i && (if i = 0 then !prevScan else !isScanAt l (i - 1))) = true then
      some (((kept + nonScanBefore l i : Nat) : Int), (scanRunLength l i : Int))
    else none

/-- The registry of the spec's concrete example:
`[a:Adhoc, b:Scan, c:Scan, d:Adhoc, e:Scan]`. -/
def exampleRegistry : ProblemCollector :=
  { ProblemCollector.create with
    m_problems :=
      [ { problemId := "a", findingCategory := FindingCategory.Adhoc, description := "" },
        { problemId := "b", findingCategory := FindingCategory.Scan, description := "" },
        { problemId := "c", findingCategory := FindingCategory.Scan, description := "" },
        { problemId := "d", findingCategory := FindingCategory.Adhoc, description := "" },
        { problemId := "e", findingCategory := FindingCategory.Scan, description := "" } ] }

/-- The same runs computed by one pass over `l`. -/
def runsFrom : Bool → Nat → List Problem → List (Int × Int)
  | _, _, [] => []
  | prevScan, kept, p :: l =>
    if p.isScan then
      (if prevScan then [] else
        [((kept : Int), ((1 + (l.takeWhile Problem.isScan).length : Nat) : Int))]) ++
        runsFrom true kept l
    else runsFrom false (kept + 1) l

/-- The loop state on entry to `requestScan`: both iterators at `begin()`. -/
def ScanLoop.start (l : List Problem) : ScanLoop :=
  { m_problems := l, firstToDeleteIt := 0, it := 0, emitted := [] }

/-- The loop state after exactly `k` iterations from `s`; `none` when the loop has left
through `break` before that. -/
def requestScanIterate : Nat → ScanLoop → Option ScanLoop
  | 0, s => some s
  | k + 1, s =>
    match requestScanStep s with
    | none => none
    | some s' => requestScanIterate k s'

/-- The loop invariant of `requestScan`: the iterators are ordered and inside the vector,
no element before `firstToDeleteIt` is Scan-tagged, and every element from
`firstToDeleteIt` up to the probe `it` is. -/
def ScanLoop.invariant (s : ScanLoop) : Prop :=
  s.firstToDeleteIt ≤ s.it ∧ s.it ≤ s.m_problems.length ∧
  (∀ i, i < s.firstToDeleteIt → isScanAt s.m_problems i = false) ∧
  (∀ i, s.firstToDeleteIt ≤ i → i < s.it → isScanAt s.m_problems i = true)

/-- The loop state on the example registry after three iterations: the probe has passed the
run `b, c` and stands on `d`. -/
def exampleLoopState : ScanLoop :=
  { m_problems := exampleRegistry.m_problems, firstToDeleteIt := 1, it := 3, emitted := [] }

/-- The loop state one iteration later: the run `b, c` has been erased and announced. -/
def exampleLoopErased : ScanLoop :=
  { m_problems :=
      [ { problemId := "a", findingCategory := FindingCategory.Adhoc, description := "" },
        { problemId := "d", findingCategory := FindingCategory.Adhoc, description := "" },
        { problemId := "e", findingCategory := FindingCategory.Scan, description := "" } ]
    firstToDeleteIt := 1
    it := 1
    emitted := [Signal.aboutToRemoveProblems 1 2, Signal.problemsRemoved] }


theorem get?_append_cons (l : List Problem) (p : Problem) (l' : List Problem) :
    (l ++ p :: l').get? l.length = some p := by
  induction l with
  | nil => rfl
  | cons a l ih => simpa using ih

theorem isScanAt_append_cons (l : List Problem) (p : Problem) (l' : List Problem) :
    isScanAt (l ++ p :: l') l.length = p.isScan := by
  unfold isScanAt
  rw [get?_append_cons]
  rfl

theorem eraseRange_middle (A R B : List Problem) :
    eraseRange (A ++ R ++ B) A.length (A.length + R.length) = A ++ B := by
  unfold eraseRange
  have h1 : (A ++ R ++ B).take A.length = A := by
    rw [List.append_assoc, List.take_left']
    rfl
  have h2 : (A ++ R ++ B).drop (A.length + R.length) = B := by
    rw [← List.length_append, List.drop_left']
    rfl
  rw [h1, h2]

theorem requestScanStep_advance (s : ScanLoop) (h1 : s.it ≠ s.m_problems.length)
    (h2 : isScanAt s.m_problems s.it = true) :
    requestScanStep s = some { s with it := s.it + 1 } := by
  unfold requestScanStep
  rw [if_pos ⟨h1, h2⟩]

theorem requestScanStep_erase (s : ScanLoop)
    (h1 : ¬ (s.it ≠ s.m_problems.length ∧ isScanAt s.m_problems s.it = true))
    (h2 : s.firstToDeleteIt ≠ s.it) :
    requestScanStep s =
      some { m_problems := eraseRange s.m_problems s.firstToDeleteIt s.it
             firstToDeleteIt := s.firstToDeleteIt
             it := s.firstToDeleteIt
             emitted := s.emitted ++
               removalPair (s.firstToDeleteIt : Int) ((s.it : Int) - (s.firstToDeleteIt : Int)) } := by
  unfold requestScanStep
  rw [if_neg h1, if_pos h2]
  rfl

theorem requestScanStep_skip (s : ScanLoop)
    (h1 : ¬ (s.it ≠ s.m_problems.length ∧ isScanAt s.m_problems s.it = true))
    (h2 : s.firstToDeleteIt = s.it) (h3 : s.it ≠ s.m_problems.length) :
    requestScanStep s =
      some { s with it := s.it + 1, firstToDeleteIt := s.firstToDeleteIt + 1 } := by
  unfold requestScanStep
  rw [if_neg h1, if_neg (not_not.mpr h2), if_pos h3]

theorem requestScanStep_break (s : ScanLoop)
    (h2 : s.firstToDeleteIt = s.it) (h3 : s.it = s.m_problems.length) :
    requestScanStep s = none := by
  unfold requestScanStep
  rw [if_neg (fun h => h.1 h3), if_neg (not_not.mpr h2), if_neg (not_not.mpr h3)]

theorem requestScanLoop_done (f : Nat) (A : List Problem) (E : List Signal) :
    requestScanLoop (f + 1)
      { m_problems := A, firstToDeleteIt := A.length, it := A.length, emitted := E } =
    some { m_problems := A, firstToDeleteIt := A.length, it := A.length, emitted := E } := by
  rw [requestScanLoop, requestScanStep_break _ rfl rfl]

theorem requestScanLoop_spec (B : List Problem) :
    ∀ (A R : List Problem) (E : List Signal) (fuel : Nat),
      (∀ p ∈ R, p.isScan = true) → 2 * B.length + 2 ≤ fuel →
      requestScanLoop fuel
        { m_problems := A ++ R ++ B, firstToDeleteIt := A.length,
          it := A.length + R.length, emitted := E } =
      some { m_problems := A ++ withoutScan B
             firstToDeleteIt := (A ++ withoutScan B).length
             it := (A ++ withoutScan B).length
             emitted := E ++ purgeSignals A.length R.length B } := by
  induction B with
  | nil =>
    intro A R E fuel hR hfuel
    obtain ⟨f, rfl⟩ : ∃ f, fuel = f + 2 := ⟨fuel - 2, by omega⟩
    have hw : withoutScan [] = [] := rfl
    rw [hw, List.append_nil, List.append_nil]
    by_cases hr : R.length = 0
    · have hR0 : R = [] := List.length_eq_zero.mp hr
      subst hR0
      have hE : E ++ purgeSignals A.length ([] : List Problem).length [] = E := by
        simp [purgeSignals, pendingFlush]
      rw [hE]
      simp only [List.append_nil, List.length_nil, Nat.add_zero]
      exact requestScanLoop_done (f + 1) A E
    · have hstep := requestScanStep_erase
          { m_problems := A ++ R, firstToDeleteIt := A.length,
            it := A.length + R.length, emitted := E }
          (fun h => h.1 (by simp)) (by show A.length ≠ A.length + R.length; omega)
      have he := eraseRange_middle A R []
      simp only [List.append_nil] at he
      simp only [he, Nat.cast_add, add_sub_cancel_left] at hstep
      rw [requestScanLoop, hstep]
      have hE : E ++ purgeSignals A.length R.length [] =
          E ++ removalPair (A.length : Int) (R.length : Int) := by
        simp [purgeSignals, pendingFlush, hr]
      rw [hE]
      exact requestScanLoop_done f A _
  | cons p B ih =>
    intro A R E fuel hR hfuel
    obtain ⟨f, rfl⟩ : ∃ f, fuel = f + 2 := ⟨fuel - 2, by omega⟩
    simp only [List.length_cons] at hfuel
    have hat : isScanAt (A ++ R ++ p :: B) (A.length + R.length) = p.isScan := by
      have h := isScanAt_append_cons (A ++ R) p B
      rwa [List.length_append] at h
    have hlen : A.length + R.length ≠ (A ++ R ++ p :: B).length := by
      simp
    by_cases hp : p.isScan = true
    · have hstep := requestScanStep_advance
          { m_problems := A ++ R ++ p :: B, firstToDeleteIt := A.length,
            it := A.length + R.length, emitted := E } hlen (by rw [hat]; exact hp)
      rw [requestScanLoop, hstep]
      have := ih A (R ++ [p]) E (f + 1)
        (by
          intro q hq
          rcases List.mem_append.mp hq with h | h
          · exact hR q h
          · simp at h; subst h; exact hp)
        (by omega)
      have e1 : A ++ (R ++ [p]) ++ B = A ++ R ++ p :: B := by simp
      have e2 : A.length + (R ++ [p]).length = A.length + R.length + 1 := by
        simp; omega
      have e3 : (R ++ [p]).length = R.length + 1 := by simp
      rw [e1, e2, e3] at this
      have e4 : withoutScan (p :: B) = withoutScan B := by
        simp [withoutScan, hp]
      have e5 : purgeSignals A.length R.length (p :: B) =
          purgeSignals A.length (R.length + 1) B := by
        simp [purgeSignals, hp]
      rw [e4, e5]
      exact this
    · have hnot : ¬ ((A.length + R.length ≠ (A ++ R ++ p :: B).length) ∧
          isScanAt (A ++ R ++ p :: B) (A.length + R.length) = true) := by
        rw [hat]; exact fun h => hp h.2
      have e4 : withoutScan (p :: B) = p :: withoutScan B := by
        simp [withoutScan, hp]
      have key : ∀ (g : Nat) (E' : List Signal), 2 * B.length + 2 ≤ g →
          requestScanLoop (g + 1)
            { m_problems := A ++ p :: B, firstToDeleteIt := A.length,
              it := A.length, emitted := E' } =
          some { m_problems := A ++ withoutScan (p :: B)
                 firstToDeleteIt := (A ++ withoutScan (p :: B)).length
                 it := (A ++ withoutScan (p :: B)).length
                 emitted := E' ++ purgeSignals (A.length + 1) 0 B } := by
        intro g E' hg
        have hat' : isScanAt (A ++ p :: B) A.length = p.isScan :=
          isScanAt_append_cons A p B
        have hstep := requestScanStep_skip
          { m_problems := A ++ p :: B, firstToDeleteIt := A.length,
            it := A.length, emitted := E' }
          (by rw [hat']; exact fun h => hp h.2) rfl (by simp)
        rw [requestScanLoop, hstep]
        have := ih (A ++ [p]) [] E' g (by simp) hg
        have e1 : A ++ [p] ++ [] ++ B = A ++ p :: B := by simp
        have e2 : (A ++ [p]).length + ([] : List Problem).length = A.length + 1 := by simp
        have e3 : (A ++ [p]).length = A.length + 1 := by simp
        have e6 : A ++ [p] ++ withoutScan B = A ++ p :: withoutScan B := by simp
        rw [e1, e2, e3, e6] at this
        rw [e4]
        exact this
      by_cases hr : R.length = 0
      · have hR0 : R = [] := List.length_eq_zero.mp hr
        subst hR0
        have e5 : E ++ purgeSignals A.length ([] : List Problem).length (p :: B) =
            E ++ purgeSignals (A.length + 1) 0 B := by
          simp [purgeSignals, pendingFlush, hp]
        rw [e5]
        simp only [List.append_nil, List.length_nil, Nat.add_zero]
        exact key (f + 1) E (by omega)
      · have hstep := requestScanStep_erase
          { m_problems := A ++ R ++ p :: B, firstToDeleteIt := A.length,
            it := A.length + R.length, emitted := E } hnot
          (by show A.length ≠ A.length + R.length; omega)
        simp only [eraseRange_middle, Nat.cast_add, add_sub_cancel_left] at hstep
        rw [requestScanLoop, hstep]
        have e5 : E ++ purgeSignals A.length R.length (p :: B) =
            E ++ removalPair (A.length : Int) (R.length : Int) ++
              purgeSignals (A.length + 1) 0 B := by
          simp [purgeSignals, pendingFlush, hp, hr]
        rw [e5]
        exact key f _ (by omega)

theorem requestScanFuel_eq (self : ProblemCollector) (fuel : Nat)
    (h : 2 * self.m_problems.length + 2 ≤ fuel) :
    requestScanFuel fuel self =
      some ({ self with m_problems := withoutScan self.m_problems },
        purgeSignals 0 0 self.m_problems ++ [Signal.problemScanRequested]) := by
  have := requestScanLoop_spec self.m_problems [] [] [] fuel (by simp) h
  simp only [List.nil_append, List.length_nil, Nat.add_zero] at this
  unfold requestScanFuel
  rw [this]

theorem requestScan_eq (self : ProblemCollector) :
    requestScan self =
      some ({ self with m_problems := withoutScan self.m_problems },
        purgeSignals 0 0 self.m_problems ++ [Signal.problemScanRequested]) :=
  requestScanFuel_eq self _ (Nat.le_refl _)

theorem purgeSignals_eq_runsFrom (l : List Problem) :
    ∀ a r : Nat, purgeSignals a r l =
      if r = 0 then removalSignals (runsFrom false a l)
      else removalPair (a : Int) ((r + (l.takeWhile Problem.isScan).length : Nat) : Int) ++
        removalSignals (runsFrom true a l) := by
  induction l with
  | nil =>
    intro a r
    by_cases hr : r = 0 <;> simp [purgeSignals, pendingFlush, hr, removalSignals, runsFrom]
  | cons p l ih =>
    intro a r
    by_cases hp : p.isScan = true
    · have h1 : purgeSignals a r (p :: l) = purgeSignals a (r + 1) l := by
        simp [purgeSignals, hp]
      rw [h1, ih a (r + 1), if_neg (Nat.succ_ne_zero r)]
      by_cases hr : r = 0
      · subst hr
        simp [runsFrom, hp, removalSignals, Nat.add_comm]
      · simp [runsFrom, hp, hr, Nat.add_assoc, Nat.add_comm 1]
    · have h1 : purgeSignals a r (p :: l) = pendingFlush a r ++ purgeSignals (a + 1) 0 l := by
        simp [purgeSignals, hp]
      rw [h1, ih (a + 1) 0, if_pos rfl]
      by_cases hr : r = 0
      · subst hr
        simp [runsFrom, hp, pendingFlush]
      · simp [runsFrom, hp, hr, pendingFlush]

theorem scanRunsAfter_eq_runsFrom (l : List Problem) :
    ∀ (prevScan : Bool) (kept : Nat), scanRunsAfter prevScan kept l = runsFrom prevScan kept l := by
  induction l with
  | nil => intro prevScan kept; rfl
  | cons p l ih =>
    intro prevScan kept
    have hshift : ∀ i : Nat,
        (if (isScanAt (p :: l) (i + 1) &&
              (if i + 1 = 0 then !prevScan else !isScanAt (p :: l) (i + 1 - 1))) = true then
            some (((kept + nonScanBefore (p :: l) (i + 1) : Nat) : Int),
              (scanRunLength (p :: l) (i + 1) : Int))
          else none) =
        (if (isScanAt l i && (if i = 0 then !p.isScan else !isScanAt l (i - 1))) = true then
            some ((((if p.isScan then kept else kept + 1) + nonScanBefore l i : Nat) : Int),
              (scanRunLength l i : Int))
          else none) := by
      intro i
      have e1 : isScanAt (p :: l) (i + 1) = isScanAt l i := rfl
      have e2 : (if i + 1 = 0 then !prevScan else !isScanAt (p :: l) (i + 1 - 1)) =
          (if i = 0 then !p.isScan else !isScanAt l (i - 1)) := by
        cases i with
        | zero => rfl
        | succ j => rfl
      have e3 : scanRunLength (p :: l) (i + 1) = scanRunLength l i := rfl
      have e4 : kept + nonScanBefore (p :: l) (i + 1) =
          (if p.isScan then kept else kept + 1) + nonScanBefore l i := by
        unfold nonScanBefore withoutScan
        by_cases hp : p.isScan = true
        · simp [hp]
        · simp [hp]; omega
      rw [e1, e2, e3, e4]
    unfold scanRunsAfter
    rw [List.length_cons, List.range_succ_eq_map, List.filterMap_cons, List.filterMap_map]
    have hfun : ((fun i : Nat =>
        if (isScanAt (p :: l) i && (if i = 0 then !prevScan else !isScanAt (p :: l) (i - 1))) = true then
          some (((kept + nonScanBefore (p :: l) i : Nat) : Int), (scanRunLength (p :: l) i : Int))
        else none) ∘ Nat.succ) =
        (fun i : Nat =>
          if (isScanAt l i && (if i = 0 then !p.isScan else !isScanAt l (i - 1))) = true then
            some ((((if p.isScan then kept else kept + 1) + nonScanBefore l i : Nat) : Int),
              (scanRunLength l i : Int))
          else none) := by
      funext i
      exact hshift i
    rw [hfun]
    have ih' := ih p.isScan (if p.isScan then kept else kept + 1)
    unfold scanRunsAfter at ih'
    rw [ih']
    have h0 : isScanAt (p :: l) 0 = p.isScan := rfl
    by_cases hp : p.isScan = true
    · cases prevScan <;>
        simp [h0, hp, runsFrom, nonScanBefore, withoutScan, scanRunLength, Nat.add_comm]
    · simp [h0, hp, runsFrom]

theorem expectedRemovals_eq (l : List Problem) :
    expectedRemovals l = scanRunsAfter false 0 l := by
  unfold expectedRemovals maximalScanRuns scanRunsAfter
  rw [List.map_filterMap]
  congr 1
  funext i
  unfold startsScanRun
  cases i with
  | zero => by_cases h : isScanAt l 0 = true <;> simp [h]
  | succ j => by_cases h : (isScanAt l (j+1) && !isScanAt l j) = true <;> simp [h]

theorem purgeSignals_eq_expected (l : List Problem) :
    purgeSignals 0 0 l = removalSignals (expectedRemovals l) := by
  rw [purgeSignals_eq_runsFrom, if_pos rfl, expectedRemovals_eq, scanRunsAfter_eq_runsFrom]

theorem withoutScan_eq_filter (l : List Problem) :
    withoutScan l = l.filter (fun p => decide (p.findingCategory ≠ FindingCategory.Scan)) := by
  unfold withoutScan
  congr 1
  funext p
  simp [Problem.isScan]

theorem removalNotifications_removalSignals (runs : List (Int × Int)) (rest : List Signal) :
    removalNotifications (removalSignals runs ++ rest) = runs ++ removalNotifications rest := by
  induction runs with
  | nil => rfl
  | cons r runs ih =>
    have : removalSignals (r :: runs) ++ rest =
        Signal.aboutToRemoveProblems r.1 r.2 :: Signal.problemsRemoved ::
          (removalSignals runs ++ rest) := by
      simp [removalSignals, removalPair]
    rw [this]
    unfold removalNotifications
    rw [List.filterMap_cons, List.filterMap_cons]
    unfold removalNotifications at ih
    simp only [ih, List.cons_append]

/-! ## The claims -/

/-- C1: for every problem sequence, `requestScan` returns, and the stored sequence is then
the original one filtered by "category is not `Scan`": every Scan-tagged element is gone
and the others keep their relative order. A run that reaches the end of the sequence is
covered, the statement being about every sequence. -/
theorem requestScan_problems (self : ProblemCollector) :
    ∃ sigs, requestScan self =
      some ({ self with
              m_problems := self.m_problems.filter
                (fun p => decide (p.findingCategory ≠ FindingCategory.Scan)) }, sigs) := by
  refine ⟨purgeSignals 0 0 self.m_problems ++ [Signal.problemScanRequested], ?_⟩
  rw [requestScan_eq, withoutScan_eq_filter]

/-- C2: the `aboutToRemoveProblems (first, count)` notifications of `requestScan` are, in
order, one per maximal contiguous run of Scan-tagged elements of the original sequence,
with `count` the length of the run and `first` the number of non-Scan elements before it;
on the spec's example they are `(1, 2)` then `(2, 1)` and the final sequence is `[a, d]`. -/
theorem requestScan_notifications :
    (∀ self : ProblemCollector, ∃ self' sigs, requestScan self = some (self', sigs) ∧
      removalNotifications sigs =
        (maximalScanRuns self.m_problems).map
          (fun run => ((nonScanBefore self.m_problems run.1 : Int), (run.2 : Int)))) ∧
    requestScan exampleRegistry =
      some ({ ProblemCollector.create with
              m_problems :=
                [ { problemId := "a", findingCategory := FindingCategory.Adhoc,
                    description := "" },
                  { problemId := "d", findingCategory := FindingCategory.Adhoc,
                    description := "" } ] },
        [Signal.aboutToRemoveProblems 1 2, Signal.problemsRemoved,
         Signal.aboutToRemoveProblems 2 1, Signal.problemsRemoved,
         Signal.problemScanRequested]) := by
  constructor
  · intro self
    refine ⟨_, _, requestScan_eq self, ?_⟩
    rw [purgeSignals_eq_expected, removalNotifications_removalSignals]
    simp [removalNotifications, expectedRemovals]
  · decide

/-- C3: `requestScan` emits exactly one `aboutToRemoveProblems`/`problemsRemoved` pair per
maximal contiguous run of Scan-tagged elements of the original sequence, each
`aboutToRemoveProblems` directly followed by its `problemsRemoved`; the only other signal
is the closing `problemScanRequested`. -/
theorem requestScan_removal_pairs (self : ProblemCollector) :
    ∃ (self' : ProblemCollector) (notifs : List (Int × Int)),
      requestScan self =
        some (self',
          notifs.flatMap
            (fun n => [Signal.aboutToRemoveProblems n.1 n.2, Signal.problemsRemoved]) ++
          [Signal.problemScanRequested]) ∧
      notifs.length = (maximalScanRuns self.m_problems).length := by
  refine ⟨{ self with m_problems := withoutScan self.m_problems },
    expectedRemovals self.m_problems, ?_, ?_⟩
  · rw [requestScan_eq, purgeSignals_eq_expected]
    rfl
  · simp [expectedRemovals]

/-- C4: `addProblem` with a problem that is already stored changes nothing and emits
nothing; otherwise it appends the problem at the end and emits exactly
`aboutToAddProblem n`, `problemAdded`, with `n` the size before the insertion. -/
theorem addProblem_spec (self : ProblemCollector) (p : Problem) :
    (p ∈ self.m_problems → addProblem self p = (self, [])) ∧
    (p ∉ self.m_problems →
      addProblem self p =
        ({ self with m_problems := self.m_problems ++ [p] },
          [Signal.aboutToAddProblem (self.m_problems.length : Int), Signal.problemAdded])) := by
  constructor
  · intro h
    unfold addProblem
    rw [if_pos h]
  · intro h
    unfold addProblem
    rw [if_neg h]

/-- On the example registry: its first problem is a duplicate, and a problem with a fresh
identifier is appended at row 5. -/
theorem addProblem_spec_witness :
    addProblem exampleRegistry
        { problemId := "a", findingCategory := FindingCategory.Adhoc, description := "" } =
      (exampleRegistry, []) ∧
    addProblem exampleRegistry
        { problemId := "f", findingCategory := FindingCategory.Scan, description := "" } =
      ({ exampleRegistry with
          m_problems := exampleRegistry.m_problems ++
            [{ problemId := "f", findingCategory := FindingCategory.Scan, description := "" }] },
        [Signal.aboutToAddProblem 5, Signal.problemAdded]) :=
  ⟨(addProblem_spec exampleRegistry _).1 (by decide),
   (addProblem_spec exampleRegistry _).2 (by decide)⟩

/-! ### Registry invariants -/

theorem addProblem_nodup (self : ProblemCollector) (p : Problem)
    (h : self.m_problems.Nodup) : (addProblem self p).1.m_problems.Nodup := by
  unfold addProblem
  by_cases hp : p ∈ self.m_problems
  · rw [if_pos hp]; exact h
  · rw [if_neg hp]
    show (self.m_problems ++ [p]).Nodup
    rw [List.nodup_append]
    refine ⟨h, List.nodup_singleton p, ?_⟩
    intro a ha hb
    rw [List.mem_singleton] at hb
    subst hb
    exact hp ha

theorem removeProblem_nodup (self : ProblemCollector) (problemId : String)
    (h : self.m_problems.Nodup) : (removeProblem self problemId).1.m_problems.Nodup := by
  unfold removeProblem
  cases self.m_problems.findIdx? (fun problem => problem.problemId == problemId) with
  | none => exact h
  | some row => exact h.sublist (List.eraseIdx_sublist _ _)

theorem requestScan_nodup (self : ProblemCollector) (h : self.m_problems.Nodup) :
    ∃ self' sigs, requestScan self = some (self', sigs) ∧ self'.m_problems.Nodup :=
  ⟨_, _, requestScan_eq self, h.sublist (List.filter_sublist _)⟩

theorem runCalls_cons {build : QtBuild} (self : ProblemCollector) (c : Call) (cs : List Call)
    (self' : ProblemCollector) (sigs : List Signal) (h : c.exec build self = some (self', sigs)) :
    runCalls build self (c :: cs) =
      match runCalls build self' cs with
      | none => none
      | some (selfEnd, sigsRest) => some (selfEnd, sigs ++ sigsRest) := by
  rw [runCalls, h]

theorem runCalls_nodup_of_registry {build : QtBuild} (calls : List Call) :
    ∀ self : ProblemCollector, self.m_problems.Nodup →
      (∀ call ∈ calls, call.isRegistryCall = true) →
      ∃ self' sigs, runCalls build self calls = some (self', sigs) ∧ self'.m_problems.Nodup := by
  induction calls with
  | nil => intro self h _; exact ⟨self, [], rfl, h⟩
  | cons c cs ih =>
    intro self h hreg
    have hc := hreg c (List.mem_cons_self _ _)
    have hcs : ∀ call ∈ cs, call.isRegistryCall = true :=
      fun call hm => hreg call (List.mem_cons_of_mem _ hm)
    have hex : ∃ self1 sigs1, c.exec build self = some (self1, sigs1) ∧ self1.m_problems.Nodup := by
      cases c with
      | addProblem p => exact ⟨_, _, rfl, addProblem_nodup self p h⟩
      | removeProblem pid => exact ⟨_, _, rfl, removeProblem_nodup self pid h⟩
      | requestScan => exact requestScan_nodup self h
      | reportScanStarted => exact absurd hc (by decide)
      | reportScanFinished => exact absurd hc (by decide)
      | timerTimeout => exact absurd hc (by decide)
    obtain ⟨self1, sigs1, h1, hn1⟩ := hex
    obtain ⟨self2, sigs2, h2, hn2⟩ := ih self1 hn1 hcs
    refine ⟨self2, sigs1 ++ sigs2, ?_, hn2⟩
    rw [runCalls_cons self c cs self1 sigs1 h1, h2]

/-- C5: every sequence of `addProblem`, `removeProblem` and `requestScan` calls on the
empty registry runs to a state without two value-equal stored problems, and each of the
three operations preserves the absence of duplicates. -/
theorem registry_nodup :
    (∀ (build : QtBuild) (calls : List Call),
      (∀ call ∈ calls, call.isRegistryCall = true) →
      ∃ self sigs, runCalls build ProblemCollector.create calls = some (self, sigs) ∧
        self.m_problems.Nodup) ∧
    (∀ (self : ProblemCollector) (p : Problem), self.m_problems.Nodup →
      (addProblem self p).1.m_problems.Nodup) ∧
    (∀ (self : ProblemCollector) (problemId : String), self.m_problems.Nodup →
      (removeProblem self problemId).1.m_problems.Nodup) ∧
    (∀ self : ProblemCollector, self.m_problems.Nodup →
      ∃ self' sigs, requestScan self = some (self', sigs) ∧ self'.m_problems.Nodup) :=
  ⟨fun _ calls h => runCalls_nodup_of_registry calls ProblemCollector.create List.nodup_nil h,
   addProblem_nodup, removeProblem_nodup, requestScan_nodup⟩

/-- A concrete call sequence from the empty registry, and each of the three operations on
the example registry, leave no duplicates. -/
theorem registry_nodup_witness :
    (∃ self sigs,
      runCalls QtBuild.release ProblemCollector.create
        [Call.addProblem
           { problemId := "a", findingCategory := FindingCategory.Scan, description := "" },
         Call.addProblem
           { problemId := "a", findingCategory := FindingCategory.Scan, description := "" },
         Call.requestScan,
         Call.removeProblem "a"] = some (self, sigs) ∧ self.m_problems.Nodup) ∧
    (addProblem exampleRegistry
      { problemId := "f", findingCategory := FindingCategory.Scan,
        description := "" }).1.m_problems.Nodup ∧
    (removeProblem exampleRegistry "b").1.m_problems.Nodup ∧
    (∃ self' sigs, requestScan exampleRegistry = some (self', sigs) ∧ self'.m_problems.Nodup) :=
  ⟨registry_nodup.1 QtBuild.release _ (by decide),
   registry_nodup.2.1 exampleRegistry _ (by decide),
   registry_nodup.2.2.1 exampleRegistry "b" (by decide),
   registry_nodup.2.2.2 exampleRegistry (by decide)⟩

/-- C6: when some stored problem has the identifier, `removeProblem` erases exactly the
element at the smallest index `i` carrying that identifier, keeps every other element in
order (the length drops by one), and emits exactly `aboutToRemoveProblems (i, 1)` followed
by `problemsRemoved`. -/
theorem removeProblem_present (self : ProblemCollector) (problemId : String)
    (h : ∃ p ∈ self.m_problems, p.problemId = problemId) :
    ∃ (i : Nat) (p : Problem),
      self.m_problems.get? i = some p ∧ p.problemId = problemId ∧
      (∀ (j : Nat) (q : Problem), j < i → self.m_problems.get? j = some q →
        q.problemId ≠ problemId) ∧
      removeProblem self problemId =
        ({ self with m_problems := self.m_problems.take i ++ self.m_problems.drop (i + 1) },
          [Signal.aboutToRemoveProblems (i : Int) 1, Signal.problemsRemoved]) ∧
      (removeProblem self problemId).1.m_problems.length + 1 = self.m_problems.length := by
  obtain ⟨p0, hp0, hid0⟩ := h
  have hex : ∃ x, x ∈ self.m_problems ∧ (fun problem : Problem => problem.problemId == problemId) x = true :=
    ⟨p0, hp0, by simp [hid0]⟩
  have hfind := List.findIdx?_eq_some_of_exists hex
  generalize hi : self.m_problems.findIdx (fun problem => problem.problemId == problemId) = i at hfind
  have hspec := List.findIdx?_eq_some_iff_getElem.mp hfind
  obtain ⟨hlt, hpi, hmin⟩ := hspec
  have hrem : removeProblem self problemId =
      ({ self with m_problems := self.m_problems.take i ++ self.m_problems.drop (i + 1) },
        [Signal.aboutToRemoveProblems (i : Int) 1, Signal.problemsRemoved]) := by
    unfold removeProblem
    rw [hfind]
    simp only [List.eraseIdx_eq_take_drop_succ]
  refine ⟨i, self.m_problems[i], ?_, ?_, ?_, hrem, ?_⟩
  · simp [List.getElem?_eq_getElem hlt]
  · simpa using hpi
  · intro j q hj hq
    have hjl : j < self.m_problems.length := Nat.lt_trans hj hlt
    have := hmin j hj
    have hq' : self.m_problems[j] = q := by
      have h2 : self.m_problems.get? j = some self.m_problems[j] := by
        simp [List.getElem?_eq_getElem hjl]
      rw [h2] at hq
      exact Option.some.inj hq
    rw [hq'] at this
    simpa using this
  · rw [hrem]
    simp
    omega

/-- Removing `"c"` from the example registry. -/
theorem removeProblem_present_witness :
    ∃ (i : Nat) (p : Problem),
      exampleRegistry.m_problems.get? i = some p ∧ p.problemId = "c" ∧
      (∀ (j : Nat) (q : Problem), j < i → exampleRegistry.m_problems.get? j = some q →
        q.problemId ≠ "c") ∧
      removeProblem exampleRegistry "c" =
        ({ exampleRegistry with
            m_problems := exampleRegistry.m_problems.take i ++
              exampleRegistry.m_problems.drop (i + 1) },
          [Signal.aboutToRemoveProblems (i : Int) 1, Signal.problemsRemoved]) ∧
      (removeProblem exampleRegistry "c").1.m_problems.length + 1 =
        exampleRegistry.m_problems.length :=
  removeProblem_present exampleRegistry "c"
    ⟨{ problemId := "c", findingCategory := FindingCategory.Scan, description := "" },
      by decide, rfl⟩

/-- C7: when no stored problem has the identifier, `removeProblem` leaves the collector
unchanged and emits nothing. -/
theorem removeProblem_absent (self : ProblemCollector) (problemId : String)
    (h : ∀ p ∈ self.m_problems, p.problemId ≠ problemId) :
    removeProblem self problemId = (self, []) := by
  have hnone : self.m_problems.findIdx? (fun problem => problem.problemId == problemId) = none := by
    rw [List.findIdx?_eq_none_iff]
    intro x hx
    simpa using h x hx
  unfold removeProblem
  rw [hnone]

/-- The example registry has no problem `"z"`, so removing it does nothing. -/
theorem removeProblem_absent_witness :
    removeProblem exampleRegistry "z" = (exampleRegistry, []) :=
  removeProblem_absent exampleRegistry "z" (by decide)

/-! ### Tracker lemmas -/

theorem runCalls_cons_some {build : QtBuild} (self : ProblemCollector) (c : Call)
    (cs : List Call)
    (self' : ProblemCollector) (sigs : List Signal)
    (h : runCalls build self (c :: cs) = some (self', sigs)) :
    ∃ self1 sigs1 sigs2, c.exec build self = some (self1, sigs1) ∧
      runCalls build self1 cs = some (self', sigs2) ∧ sigs = sigs1 ++ sigs2 := by
  cases h1 : c.exec build self with
  | none => rw [runCalls, h1] at h; cases h
  | some r1 =>
    obtain ⟨self1, sigs1⟩ := r1
    rw [runCalls_cons self c cs self1 sigs1 h1] at h
    cases h2 : runCalls build self1 cs with
    | none => rw [h2] at h; cases h
    | some r2 =>
      obtain ⟨self2, sigs2⟩ := r2
      rw [h2] at h
      simp only [Option.some.injEq, Prod.mk.injEq] at h
      exact ⟨self1, sigs1, sigs2, rfl, by rw [h2, h.1], h.2.symm⟩

theorem not_mem_removalSignals (runs : List (Int × Int)) :
    Signal.problemScansFinished ∉ removalSignals runs := by
  simp [removalSignals, removalPair, List.mem_flatMap]

theorem exec_registry_frame {build : QtBuild} (self self1 : ProblemCollector) (c : Call)
    (sigs : List Signal)
    (hc : c.isRegistryCall = true) (h : c.exec build self = some (self1, sigs)) :
    self1.m_runningScanCount = self.m_runningScanCount ∧
    self1.m_reportFinishedTimer = self.m_reportFinishedTimer ∧
    Signal.problemScansFinished ∉ sigs := by
  cases c with
  | addProblem p =>
    simp only [Call.exec, Option.some.injEq] at h
    unfold addProblem at h
    by_cases hp : p ∈ self.m_problems
    · rw [if_pos hp] at h
      cases h
      simp
    · rw [if_neg hp] at h
      cases h
      simp
  | removeProblem pid =>
    simp only [Call.exec, Option.some.injEq] at h
    unfold removeProblem at h
    cases hf : self.m_problems.findIdx? (fun problem => problem.problemId == pid) with
    | none =>
      rw [hf] at h
      cases h
      simp
    | some row =>
      rw [hf] at h
      cases h
      simp
  | requestScan =>
    simp only [Call.exec] at h
    rw [requestScan_eq, purgeSignals_eq_expected] at h
    cases h
    refine ⟨rfl, rfl, ?_⟩
    intro hm
    rcases List.mem_append.mp hm with h1 | h1
    · exact not_mem_removalSignals _ h1
    · simp at h1
  | reportScanStarted => exact absurd hc (by decide)
  | reportScanFinished => exact absurd hc (by decide)
  | timerTimeout => exact absurd hc (by decide)

theorem Q_ASSERT_debug (cond : Bool) :
    Q_ASSERT QtBuild.debug cond = if cond then some () else none := rfl

theorem reportScanFinished_checked (build : QtBuild) (self : ProblemCollector)
    (hq : Q_ASSERT build (decide (self.m_runningScanCount > 0)) = some ()) :
    reportScanFinished build self =
      if self.m_runningScanCount - 1 = 0 then
        some ({ self with
                m_runningScanCount := self.m_runningScanCount - 1
                m_reportFinishedTimer := self.m_reportFinishedTimer.start }, [])
      else
        some ({ self with m_runningScanCount := self.m_runningScanCount - 1 }, []) := by
  unfold reportScanFinished
  rw [hq]

theorem reportScanFinished_debug_none (self : ProblemCollector)
    (h : self.m_runningScanCount ≤ 0) : reportScanFinished QtBuild.debug self = none := by
  have hq : Q_ASSERT QtBuild.debug (decide (self.m_runningScanCount > 0)) = none := by
    rw [Q_ASSERT_debug]
    have : ¬ (self.m_runningScanCount > 0) := by omega
    simp [this]
  unfold reportScanFinished
  rw [hq]

theorem reportScanFinished_release (self : ProblemCollector) :
    reportScanFinished QtBuild.release self =
      if self.m_runningScanCount - 1 = 0 then
        some ({ self with
                m_runningScanCount := self.m_runningScanCount - 1
                m_reportFinishedTimer := self.m_reportFinishedTimer.start }, [])
      else
        some ({ self with m_runningScanCount := self.m_runningScanCount - 1 }, []) :=
  reportScanFinished_checked QtBuild.release self rfl

theorem reportScanFinished_of_pos (build : QtBuild) (self : ProblemCollector)
    (h : 0 < self.m_runningScanCount) :
    reportScanFinished build self = reportScanFinished QtBuild.debug self := by
  have hq : ∀ b : QtBuild, Q_ASSERT b (decide (self.m_runningScanCount > 0)) = some () := by
    intro b
    cases b with
    | debug => rw [Q_ASSERT_debug]; simp [h]
    | release => rfl
  rw [reportScanFinished_checked build self (hq build),
    reportScanFinished_checked QtBuild.debug self (hq QtBuild.debug)]

theorem reportScanFinished_some {build : QtBuild} (self self1 : ProblemCollector)
    (sigs : List Signal) (h : reportScanFinished build self = some (self1, sigs)) :
    (build = QtBuild.debug → 0 < self.m_runningScanCount) ∧
    self1.m_runningScanCount = self.m_runningScanCount - 1 ∧
    self1.m_reportFinishedTimer.singleShot = self.m_reportFinishedTimer.singleShot ∧
    sigs = [] ∧
    (self1.m_runningScanCount = 0 ∨
      self1.m_reportFinishedTimer = self.m_reportFinishedTimer) := by
  have hpos : build = QtBuild.debug → 0 < self.m_runningScanCount := by
    intro hb
    subst hb
    by_contra hn
    rw [reportScanFinished_debug_none self (by omega)] at h
    cases h
  have hq : Q_ASSERT build (decide (self.m_runningScanCount > 0)) = some () := by
    cases build with
    | debug => rw [Q_ASSERT_debug]; simp [hpos rfl]
    | release => rfl
  rw [reportScanFinished_checked build self hq] at h
  by_cases hz : self.m_runningScanCount - 1 = 0
  · rw [if_pos hz] at h
    simp only [Option.some.injEq, Prod.mk.injEq] at h
    obtain ⟨h1, h2⟩ := h
    subst h1
    exact ⟨hpos, rfl, rfl, h2.symm, Or.inl hz⟩
  · rw [if_neg hz] at h
    simp only [Option.some.injEq, Prod.mk.injEq] at h
    obtain ⟨h1, h2⟩ := h
    subst h1
    exact ⟨hpos, rfl, rfl, h2.symm, Or.inr rfl⟩

theorem timerTimeout_some (self self1 : ProblemCollector) (sigs : List Signal)
    (h : timerTimeout self = some (self1, sigs)) :
    self.m_reportFinishedTimer.active = true ∧
    self1.m_runningScanCount = self.m_runningScanCount ∧
    self1.m_reportFinishedTimer = self.m_reportFinishedTimer.fire ∧
    (Signal.problemScansFinished ∈ sigs → self.m_runningScanCount = 0) := by
  unfold timerTimeout at h
  by_cases ha : self.m_reportFinishedTimer.active = true
  · rw [if_pos ha] at h
    unfold maybeEmitScansFinished at h
    by_cases hz : self.m_runningScanCount = 0
    · simp only [hz, if_true, Option.some.injEq, Prod.mk.injEq] at h
      obtain ⟨h1, h2⟩ := h
      subst h1
      exact ⟨ha, hz.symm, rfl, fun _ => hz⟩
    · simp only [hz, if_false, Option.some.injEq, Prod.mk.injEq] at h
      obtain ⟨h1, h2⟩ := h
      subst h1
      subst h2
      exact ⟨ha, rfl, rfl, fun hm => by simp at hm⟩
  · rw [if_neg ha] at h
    cases h

theorem exec_count {build : QtBuild} (self self1 : ProblemCollector) (c : Call)
    (sigs : List Signal) (h : c.exec build self = some (self1, sigs)) :
    self1.m_runningScanCount =
      self.m_runningScanCount + (([c].count Call.reportScanStarted : Nat) : Int) -
        (([c].count Call.reportScanFinished : Nat) : Int) := by
  cases c with
  | addProblem p =>
    obtain ⟨e, _, _⟩ := exec_registry_frame self self1 (Call.addProblem p) sigs rfl h
    rw [e]; simp
  | removeProblem pid =>
    obtain ⟨e, _, _⟩ := exec_registry_frame self self1 (Call.removeProblem pid) sigs rfl h
    rw [e]; simp
  | requestScan =>
    obtain ⟨e, _, _⟩ := exec_registry_frame self self1 Call.requestScan sigs rfl h
    rw [e]; simp
  | reportScanStarted =>
    simp only [Call.exec, reportScanStarted, Option.some.injEq, Prod.mk.injEq] at h
    obtain ⟨h1, _⟩ := h
    subst h1
    simp
  | reportScanFinished =>
    obtain ⟨_, e, _, _, _⟩ := reportScanFinished_some self self1 sigs h
    rw [e]; simp
  | timerTimeout =>
    obtain ⟨_, e, _, _⟩ := timerTimeout_some self self1 sigs h
    rw [e]; simp

theorem exec_nonneg (self self1 : ProblemCollector) (c : Call) (sigs : List Signal)
    (h : c.exec QtBuild.debug self = some (self1, sigs)) (h0 : 0 ≤ self.m_runningScanCount) :
    0 ≤ self1.m_runningScanCount := by
  cases c with
  | addProblem p =>
    obtain ⟨e, _, _⟩ := exec_registry_frame self self1 (Call.addProblem p) sigs rfl h
    rw [e]; exact h0
  | removeProblem pid =>
    obtain ⟨e, _, _⟩ := exec_registry_frame self self1 (Call.removeProblem pid) sigs rfl h
    rw [e]; exact h0
  | requestScan =>
    obtain ⟨e, _, _⟩ := exec_registry_frame self self1 Call.requestScan sigs rfl h
    rw [e]; exact h0
  | reportScanStarted =>
    simp only [Call.exec, reportScanStarted, Option.some.injEq, Prod.mk.injEq] at h
    obtain ⟨h1, _⟩ := h
    subst h1
    show 0 ≤ self.m_runningScanCount + 1
    omega
  | reportScanFinished =>
    obtain ⟨hpos, e, _, _, _⟩ := reportScanFinished_some self self1 sigs h
    have := hpos rfl
    rw [e]
    omega
  | timerTimeout =>
    obtain ⟨_, e, _, _⟩ := timerTimeout_some self self1 sigs h
    rw [e]; exact h0

theorem exec_of_debug (build : QtBuild) (self : ProblemCollector) (c : Call)
    (r : ProblemCollector × List Signal) (h : c.exec QtBuild.debug self = some r) :
    c.exec build self = some r := by
  cases c with
  | addProblem p => exact h
  | removeProblem pid => exact h
  | requestScan => exact h
  | reportScanStarted => exact h
  | reportScanFinished =>
    obtain ⟨self1, sigs⟩ := r
    obtain ⟨hpos, _, _, _, _⟩ := reportScanFinished_some self self1 sigs h
    show reportScanFinished build self = some (self1, sigs)
    rw [reportScanFinished_of_pos build self (hpos rfl)]
    exact h
  | timerTimeout => exact h

theorem runCalls_of_debug (build : QtBuild) (calls : List Call) :
    ∀ (self : ProblemCollector) (r : ProblemCollector × List Signal),
      runCalls QtBuild.debug self calls = some r → runCalls build self calls = some r := by
  induction calls with
  | nil => intro self r h; exact h
  | cons c cs ih =>
    intro self r h
    obtain ⟨selfEnd, sigs⟩ := r
    obtain ⟨self1, sigs1, sigs2, hc, hcs, e⟩ := runCalls_cons_some self c cs selfEnd sigs h
    rw [runCalls_cons self c cs self1 sigs1 (exec_of_debug build self c _ hc),
      ih self1 _ hcs, e]

theorem runCalls_count {build : QtBuild} (calls : List Call) :
    ∀ (self self' : ProblemCollector) (sigs : List Signal),
      runCalls build self calls = some (self', sigs) →
      self'.m_runningScanCount =
        self.m_runningScanCount + ((calls.count Call.reportScanStarted : Nat) : Int) -
          ((calls.count Call.reportScanFinished : Nat) : Int) := by
  induction calls with
  | nil =>
    intro self self' sigs h
    simp only [runCalls, Option.some.injEq, Prod.mk.injEq] at h
    obtain ⟨h1, _⟩ := h
    subst h1
    simp
  | cons c cs ih =>
    intro self self' sigs h
    obtain ⟨self1, sigs1, sigs2, hc, hcs, _⟩ := runCalls_cons_some self c cs self' sigs h
    have e1 := exec_count self self1 c sigs1 hc
    have e2 := ih self1 self' sigs2 hcs
    rw [e2, e1]
    have hs : (c :: cs).count Call.reportScanStarted =
        [c].count Call.reportScanStarted + cs.count Call.reportScanStarted := by
      rw [← List.count_append]; rfl
    have hf : (c :: cs).count Call.reportScanFinished =
        [c].count Call.reportScanFinished + cs.count Call.reportScanFinished := by
      rw [← List.count_append]; rfl
    rw [hs, hf]
    push_cast
    ring

theorem runCalls_nonneg (calls : List Call) :
    ∀ (self self' : ProblemCollector) (sigs : List Signal),
      runCalls QtBuild.debug self calls = some (self', sigs) →
      0 ≤ self.m_runningScanCount → 0 ≤ self'.m_runningScanCount := by
  induction calls with
  | nil =>
    intro self self' sigs h h0
    simp only [runCalls, Option.some.injEq, Prod.mk.injEq] at h
    obtain ⟨h1, _⟩ := h
    subst h1
    exact h0
  | cons c cs ih =>
    intro self self' sigs h h0
    obtain ⟨self1, sigs1, sigs2, hc, hcs, _⟩ := runCalls_cons_some self c cs self' sigs h
    exact ih self1 self' sigs2 hcs (exec_nonneg self self1 c sigs1 hc h0)

/-- C8, as the code has it: `Q_ASSERT` is active only in a build without `QT_NO_DEBUG`.
In such a build `reportScanFinished` called with a count of zero (or less) takes the fatal
assertion path and yields no new state, and in every state reached from the initial one the
count is non-negative and equals the number of `reportScanStarted` calls minus the number
of `reportScanFinished` calls. In either build a `reportScanFinished` that returns has
decremented the count by exactly one (in a debug build it had a positive count), the count
of every reached state equals starts minus finishes, and a call sequence in which
`reportScanFinished` is only called with a positive count runs to the same state as in a
debug build, hence with a non-negative count. -/
theorem scanCount_spec :
    (∀ self : ProblemCollector, self.m_runningScanCount ≤ 0 →
      reportScanFinished QtBuild.debug self = none) ∧
    (∀ (build : QtBuild) (self self' : ProblemCollector) (sigs : List Signal),
      reportScanFinished build self = some (self', sigs) →
      self'.m_runningScanCount = self.m_runningScanCount - 1 ∧
        (build = QtBuild.debug → 0 < self.m_runningScanCount)) ∧
    (∀ (calls : List Call) (self : ProblemCollector) (sigs : List Signal),
      runCalls QtBuild.debug ProblemCollector.create calls = some (self, sigs) →
      0 ≤ self.m_runningScanCount ∧
      self.m_runningScanCount =
        ((calls.count Call.reportScanStarted : Nat) : Int) -
          ((calls.count Call.reportScanFinished : Nat) : Int)) ∧
    (∀ (build : QtBuild) (calls : List Call) (self : ProblemCollector) (sigs : List Signal),
      runCalls build ProblemCollector.create calls = some (self, sigs) →
      self.m_runningScanCount =
        ((calls.count Call.reportScanStarted : Nat) : Int) -
          ((calls.count Call.reportScanFinished : Nat) : Int)) ∧
    (∀ (build : QtBuild) (calls : List Call) (self : ProblemCollector) (sigs : List Signal),
      runCalls QtBuild.debug ProblemCollector.create calls = some (self, sigs) →
      runCalls build ProblemCollector.create calls = some (self, sigs) ∧
        0 ≤ self.m_runningScanCount) := by
  have hcount : ∀ (build : QtBuild) (calls : List Call) (self : ProblemCollector)
      (sigs : List Signal),
      runCalls build ProblemCollector.create calls = some (self, sigs) →
      self.m_runningScanCount =
        ((calls.count Call.reportScanStarted : Nat) : Int) -
          ((calls.count Call.reportScanFinished : Nat) : Int) := by
    intro build calls self sigs h
    have := runCalls_count calls ProblemCollector.create self sigs h
    simpa [ProblemCollector.create] using this
  have hnonneg : ∀ (calls : List Call) (self : ProblemCollector) (sigs : List Signal),
      runCalls QtBuild.debug ProblemCollector.create calls = some (self, sigs) →
      0 ≤ self.m_runningScanCount :=
    fun calls self sigs h =>
      runCalls_nonneg calls ProblemCollector.create self sigs h (by decide)
  refine ⟨reportScanFinished_debug_none, ?_, ?_, hcount, ?_⟩
  · intro build self self' sigs h
    obtain ⟨h1, h2, _, _, _⟩ := reportScanFinished_some self self' sigs h
    exact ⟨h2, h1⟩
  · intro calls self sigs h
    exact ⟨hnonneg calls self sigs h, hcount QtBuild.debug calls self sigs h⟩
  · intro build calls self sigs h
    exact ⟨runCalls_of_debug build calls _ _ h, hnonneg calls self sigs h⟩

/-- In a debug build the assertion fails in the initial state; in a release build a finish
from count one returns with count zero, and a lone finish leaves the count at starts minus
finishes; after two starts and one finish the count is one in either build. -/
theorem scanCount_spec_witness :
    reportScanFinished QtBuild.debug ProblemCollector.create = none ∧
    (({ ProblemCollector.create with
        m_reportFinishedTimer :=
          { singleShot := true, interval := 10, active := true } } :
        ProblemCollector).m_runningScanCount =
      ({ ProblemCollector.create with m_runningScanCount := 1 } :
        ProblemCollector).m_runningScanCount - 1 ∧
      (QtBuild.release = QtBuild.debug →
        0 < ({ ProblemCollector.create with m_runningScanCount := 1 } :
          ProblemCollector).m_runningScanCount)) ∧
    (0 ≤ ({ ProblemCollector.create with m_runningScanCount := 1 } :
        ProblemCollector).m_runningScanCount ∧
      ({ ProblemCollector.create with m_runningScanCount := 1 } :
        ProblemCollector).m_runningScanCount =
        (([Call.reportScanStarted, Call.reportScanStarted,
            Call.reportScanFinished].count Call.reportScanStarted : Nat) : Int) -
        (([Call.reportScanStarted, Call.reportScanStarted,
            Call.reportScanFinished].count Call.reportScanFinished : Nat) : Int)) ∧
    (({ ProblemCollector.create with m_runningScanCount := -1 } :
        ProblemCollector).m_runningScanCount =
      (([Call.reportScanFinished].count Call.reportScanStarted : Nat) : Int) -
        (([Call.reportScanFinished].count Call.reportScanFinished : Nat) : Int)) ∧
    (runCalls QtBuild.release ProblemCollector.create
        [Call.reportScanStarted, Call.reportScanStarted, Call.reportScanFinished] =
      some ({ ProblemCollector.create with m_runningScanCount := 1 }, []) ∧
      0 ≤ ({ ProblemCollector.create with m_runningScanCount := 1 } :
        ProblemCollector).m_runningScanCount) :=
  ⟨scanCount_spec.1 ProblemCollector.create (by decide),
   scanCount_spec.2.1 QtBuild.release
     { ProblemCollector.create with m_runningScanCount := 1 }
     { ProblemCollector.create with
        m_reportFinishedTimer := { singleShot := true, interval := 10, active := true } }
     [] (by decide),
   scanCount_spec.2.2.1
     [Call.reportScanStarted, Call.reportScanStarted, Call.reportScanFinished]
     { ProblemCollector.create with m_runningScanCount := 1 } [] (by decide),
   scanCount_spec.2.2.2.1 QtBuild.release [Call.reportScanFinished]
     { ProblemCollector.create with m_runningScanCount := -1 } [] (by decide),
   scanCount_spec.2.2.2.2 QtBuild.release
     [Call.reportScanStarted, Call.reportScanStarted, Call.reportScanFinished]
     { ProblemCollector.create with m_runningScanCount := 1 } [] (by decide)⟩

/-- A release build has no fatal path: in the initial state, with no scan active,
`reportScanFinished` returns and the count is `-1`, which is negative. -/
theorem scanCount_release_negative :
    reportScanFinished QtBuild.release ProblemCollector.create =
      some ({ ProblemCollector.create with m_runningScanCount := -1 }, []) ∧
    runCalls QtBuild.release ProblemCollector.create [Call.reportScanFinished] =
      some ({ ProblemCollector.create with m_runningScanCount := -1 }, []) ∧
    ¬ (0 ≤ ({ ProblemCollector.create with m_runningScanCount := -1 } :
        ProblemCollector).m_runningScanCount) := by
  decide

theorem runCalls_append {build : QtBuild} (cs ds : List Call) :
    ∀ (self self1 self2 : ProblemCollector) (sigs1 sigs2 : List Signal),
      runCalls build self cs = some (self1, sigs1) → runCalls build self1 ds = some (self2, sigs2) →
      runCalls build self (cs ++ ds) = some (self2, sigs1 ++ sigs2) := by
  induction cs with
  | nil =>
    intro self self1 self2 sigs1 sigs2 h1 h2
    simp only [runCalls, Option.some.injEq, Prod.mk.injEq] at h1
    obtain ⟨e1, e2⟩ := h1
    subst e1; subst e2
    simpa using h2
  | cons c cs ih =>
    intro self self1 self2 sigs1 sigs2 h1 h2
    obtain ⟨selfa, sigsa, sigsb, hc, hcs, e⟩ := runCalls_cons_some self c cs self1 sigs1 h1
    have := ih selfa self1 self2 sigsb sigs2 hcs h2
    rw [List.cons_append, runCalls_cons self c (cs ++ ds) selfa sigsa hc, this, e,
      List.append_assoc]

theorem runCalls_startFinish (build : QtBuild) (self : ProblemCollector)
    (h0 : self.m_runningScanCount = 0) :
    runCalls build self [Call.reportScanStarted, Call.reportScanFinished] =
      some ({ self with m_reportFinishedTimer := self.m_reportFinishedTimer.start }, []) := by
  obtain ⟨ps, cnt, tm⟩ := self
  simp only at h0
  subst h0
  cases build <;>
    simp [runCalls, Call.exec, reportScanStarted, reportScanFinished, Q_ASSERT,
      QTimer.start, QTimer.stop]

theorem runCalls_startFinishPairs (build : QtBuild) (n : Nat) :
    ∀ self : ProblemCollector, self.m_runningScanCount = 0 →
      runCalls build self (startFinishPairs (n + 1)) =
        some ({ self with m_reportFinishedTimer := self.m_reportFinishedTimer.start }, []) := by
  induction n with
  | zero =>
    intro self h0
    exact runCalls_startFinish build self h0
  | succ n ih =>
    intro self h0
    have h1 := runCalls_startFinish build self h0
    have h2 := ih { self with m_reportFinishedTimer := self.m_reportFinishedTimer.start } h0
    have h3 := runCalls_append _ _ _ _ _ _ _ h1 h2
    exact h3

/-- C9: from the initial state, in either build, after `n ≥ 1` back-to-back
`reportScanStarted`, `reportScanFinished` pairs and then the timer expiring, the signals
emitted in total are exactly one `problemScansFinished`; the timer is then no longer
pending, so no further expiry can happen. -/
theorem debounce_emits_once (build : QtBuild) (n : Nat) (h : 1 ≤ n) :
    ∃ self : ProblemCollector,
      runCalls build ProblemCollector.create (startFinishPairs n ++ [Call.timerTimeout]) =
        some (self, [Signal.problemScansFinished]) ∧
      self.m_reportFinishedTimer.active = false ∧
      timerTimeout self = none := by
  obtain ⟨m, rfl⟩ : ∃ m, n = m + 1 := ⟨n - 1, by omega⟩
  refine ⟨ProblemCollector.create, ?_, rfl, rfl⟩
  have h1 := runCalls_startFinishPairs build m ProblemCollector.create rfl
  have h2 : runCalls build
      { ProblemCollector.create with
        m_reportFinishedTimer := ProblemCollector.create.m_reportFinishedTimer.start }
      [Call.timerTimeout] = some (ProblemCollector.create, [Signal.problemScansFinished]) := by
    cases build <;> decide
  exact runCalls_append _ _ _ _ _ _ _ h1 h2

/-- Two start/finish pairs and one expiry: the spec's coalescing scenario. -/
theorem debounce_emits_once_witness :
    ∃ self : ProblemCollector,
      runCalls QtBuild.release ProblemCollector.create
          (startFinishPairs 2 ++ [Call.timerTimeout]) =
        some (self, [Signal.problemScansFinished]) ∧
      self.m_reportFinishedTimer.active = false ∧
      timerTimeout self = none :=
  debounce_emits_once QtBuild.release 2 (by decide)

theorem exec_singleShot {build : QtBuild} (self self1 : ProblemCollector) (c : Call)
    (sigs : List Signal) (h : c.exec build self = some (self1, sigs))
    (hs : self.m_reportFinishedTimer.singleShot = true) :
    self1.m_reportFinishedTimer.singleShot = true := by
  cases c with
  | addProblem p =>
    obtain ⟨_, e, _⟩ := exec_registry_frame self self1 (Call.addProblem p) sigs rfl h
    rw [e]; exact hs
  | removeProblem pid =>
    obtain ⟨_, e, _⟩ := exec_registry_frame self self1 (Call.removeProblem pid) sigs rfl h
    rw [e]; exact hs
  | requestScan =>
    obtain ⟨_, e, _⟩ := exec_registry_frame self self1 Call.requestScan sigs rfl h
    rw [e]; exact hs
  | reportScanStarted =>
    simp only [Call.exec, reportScanStarted, Option.some.injEq, Prod.mk.injEq] at h
    obtain ⟨h1, _⟩ := h
    subst h1
    exact hs
  | reportScanFinished =>
    obtain ⟨_, _, e, _, _⟩ := reportScanFinished_some self self1 sigs h
    rw [e]; exact hs
  | timerTimeout =>
    obtain ⟨_, _, e, _⟩ := timerTimeout_some self self1 sigs h
    rw [e]
    simp [QTimer.fire, hs]

theorem runCalls_singleShot {build : QtBuild} (calls : List Call) :
    ∀ (self self' : ProblemCollector) (sigs : List Signal),
      runCalls build self calls = some (self', sigs) →
      self.m_reportFinishedTimer.singleShot = true →
      self'.m_reportFinishedTimer.singleShot = true := by
  induction calls with
  | nil =>
    intro self self' sigs h hs
    simp only [runCalls, Option.some.injEq, Prod.mk.injEq] at h
    obtain ⟨h1, _⟩ := h
    subst h1
    exact hs
  | cons c cs ih =>
    intro self self' sigs h hs
    obtain ⟨self1, sigs1, sigs2, hc, hcs, _⟩ := runCalls_cons_some self c cs self' sigs h
    exact ih self1 self' sigs2 hcs (exec_singleShot self self1 c sigs1 hc hs)

theorem exec_emits {build : QtBuild} (self self1 : ProblemCollector) (c : Call)
    (sigs : List Signal)
    (h : c.exec build self = some (self1, sigs)) (hm : Signal.problemScansFinished ∈ sigs) :
    c = Call.timerTimeout ∧ self.m_reportFinishedTimer.active = true ∧
    self1.m_runningScanCount = 0 ∧
    self1.m_reportFinishedTimer = self.m_reportFinishedTimer.fire := by
  cases c with
  | addProblem p =>
    exact absurd hm (exec_registry_frame self self1 (Call.addProblem p) sigs rfl h).2.2
  | removeProblem pid =>
    exact absurd hm (exec_registry_frame self self1 (Call.removeProblem pid) sigs rfl h).2.2
  | requestScan =>
    exact absurd hm (exec_registry_frame self self1 Call.requestScan sigs rfl h).2.2
  | reportScanStarted =>
    simp only [Call.exec, reportScanStarted, Option.some.injEq, Prod.mk.injEq] at h
    obtain ⟨_, h2⟩ := h
    subst h2
    simp at hm
  | reportScanFinished =>
    obtain ⟨_, _, _, e, _⟩ := reportScanFinished_some self self1 sigs h
    subst e
    simp at hm
  | timerTimeout =>
    obtain ⟨ha, e1, e2, hz⟩ := timerTimeout_some self self1 sigs h
    exact ⟨rfl, ha, by rw [e1]; exact hz hm, e2⟩

theorem exec_quiet {build : QtBuild} (self self1 : ProblemCollector) (c : Call)
    (sigs : List Signal) (h : c.exec build self = some (self1, sigs))
    (hc : c ≠ Call.reportScanStarted)
    (ha : self.m_reportFinishedTimer.active = false) (h0 : self.m_runningScanCount ≤ 0) :
    self1.m_reportFinishedTimer.active = false ∧ self1.m_runningScanCount ≤ 0 := by
  cases c with
  | addProblem p =>
    obtain ⟨e1, e2, _⟩ := exec_registry_frame self self1 (Call.addProblem p) sigs rfl h
    rw [e1, e2]; exact ⟨ha, h0⟩
  | removeProblem pid =>
    obtain ⟨e1, e2, _⟩ := exec_registry_frame self self1 (Call.removeProblem pid) sigs rfl h
    rw [e1, e2]; exact ⟨ha, h0⟩
  | requestScan =>
    obtain ⟨e1, e2, _⟩ := exec_registry_frame self self1 Call.requestScan sigs rfl h
    rw [e1, e2]; exact ⟨ha, h0⟩
  | reportScanStarted => exact absurd rfl hc
  | reportScanFinished =>
    obtain ⟨_, e, _, _, ht⟩ := reportScanFinished_some self self1 sigs h
    have hneg : self1.m_runningScanCount ≤ 0 := by rw [e]; omega
    rcases ht with hz | ht
    · rw [e] at hz
      omega
    · rw [ht]
      exact ⟨ha, hneg⟩
  | timerTimeout =>
    obtain ⟨ha', _, _, _⟩ := timerTimeout_some self self1 sigs h
    rw [ha] at ha'
    cases ha'

theorem runCalls_quiet {build : QtBuild} (calls : List Call) :
    ∀ (self self' : ProblemCollector) (sigs : List Signal),
      runCalls build self calls = some (self', sigs) → Call.reportScanStarted ∉ calls →
      self.m_reportFinishedTimer.active = false → self.m_runningScanCount ≤ 0 →
      self'.m_reportFinishedTimer.active = false ∧ self'.m_runningScanCount ≤ 0 := by
  induction calls with
  | nil =>
    intro self self' sigs h _ ha h0
    simp only [runCalls, Option.some.injEq, Prod.mk.injEq] at h
    obtain ⟨h1, _⟩ := h
    subst h1
    exact ⟨ha, h0⟩
  | cons c cs ih =>
    intro self self' sigs h hnot ha h0
    obtain ⟨self1, sigs1, sigs2, hc, hcs, _⟩ := runCalls_cons_some self c cs self' sigs h
    have hne : c ≠ Call.reportScanStarted := fun e => hnot (e ▸ List.mem_cons_self _ _)
    obtain ⟨ha1, h01⟩ := exec_quiet self self1 c sigs1 hc hne ha h0
    exact ih self1 self' sigs2 hcs (fun hm => hnot (List.mem_cons_of_mem _ hm)) ha1 h01

/-- C10: in an execution from the initial state, in either build, if a call `x` emits
`problemScansFinished` and, after the further calls `between`, a call `y` emits it again,
then `between` contains a `reportScanStarted` call (and both emitting calls are timer
expiries): the signal is never emitted twice for one quiescence period. -/
theorem scansFinished_needs_new_scan (build : QtBuild) (before between : List Call)
    (x y : Call)
    (c1 c2 c3 c4 : ProblemCollector) (s1 sx s2 sy : List Signal)
    (h1 : runCalls build ProblemCollector.create before = some (c1, s1))
    (hx : x.exec build c1 = some (c2, sx))
    (h2 : runCalls build c2 between = some (c3, s2))
    (hy : y.exec build c3 = some (c4, sy))
    (hex : Signal.problemScansFinished ∈ sx)
    (hey : Signal.problemScansFinished ∈ sy) :
    Call.reportScanStarted ∈ between ∧ x = Call.timerTimeout ∧ y = Call.timerTimeout := by
  have hs1 := runCalls_singleShot before _ c1 s1 h1 rfl
  obtain ⟨ex, _, hz2, et2⟩ := exec_emits c1 c2 x sx hx hex
  obtain ⟨ey, hay, _, _⟩ := exec_emits c3 c4 y sy hy hey
  refine ⟨?_, ex, ey⟩
  by_contra hnot
  have hq2 : c2.m_reportFinishedTimer.active = false := by
    rw [et2]
    simp [QTimer.fire, hs1]
  obtain ⟨ha3, _⟩ := runCalls_quiet between c2 c3 s2 h2 hnot hq2 (le_of_eq hz2)
  rw [ha3] at hay
  cases hay

/-- Two debounced scans, each followed by a timer expiry. -/
theorem scansFinished_needs_new_scan_witness :
    Call.reportScanStarted ∈ [Call.reportScanStarted, Call.reportScanFinished] ∧
    Call.timerTimeout = Call.timerTimeout ∧ Call.timerTimeout = Call.timerTimeout :=
  scansFinished_needs_new_scan QtBuild.release
    [Call.reportScanStarted, Call.reportScanFinished]
    [Call.reportScanStarted, Call.reportScanFinished]
    Call.timerTimeout Call.timerTimeout
    { ProblemCollector.create with
      m_reportFinishedTimer := { singleShot := true, interval := 10, active := true } }
    ProblemCollector.create
    { ProblemCollector.create with
      m_reportFinishedTimer := { singleShot := true, interval := 10, active := true } }
    ProblemCollector.create
    [] [Signal.problemScansFinished] [] [Signal.problemScansFinished]
    (by decide) (by decide) (by decide) (by decide) (by decide) (by decide)

/-! ### Further claims on the tracker and the registry -/

theorem maybeEmitScansFinished_nonzero (self : ProblemCollector)
    (h : self.m_runningScanCount ≠ 0) : maybeEmitScansFinished self = (self, []) := by
  unfold maybeEmitScansFinished
  rw [if_neg h]

/-- C11: in every execution from the initial state, in either build, a call that emits
`problemScansFinished` is a timer expiry taken in a state whose active-scan count is zero,
the count is still zero afterwards, and the calls made so far contain as many
`reportScanStarted` as `reportScanFinished`; `maybeEmitScansFinished` emits nothing when the
count is non-zero. With overlapping scans (start, start, finish, finish) nothing can fire
before the second finish, and the expiry after it emits the signal once. -/
theorem scansFinished_only_at_zero :
    (∀ (build : QtBuild) (before : List Call) (x : Call) (c1 c2 : ProblemCollector)
      (s1 sx : List Signal),
      runCalls build ProblemCollector.create before = some (c1, s1) →
      x.exec build c1 = some (c2, sx) → Signal.problemScansFinished ∈ sx →
      x = Call.timerTimeout ∧ c1.m_runningScanCount = 0 ∧ c2.m_runningScanCount = 0 ∧
        before.count Call.reportScanStarted = before.count Call.reportScanFinished) ∧
    (∀ self : ProblemCollector, self.m_runningScanCount ≠ 0 →
      maybeEmitScansFinished self = (self, [])) ∧
    (∀ build : QtBuild,
      runCalls build ProblemCollector.create
        [Call.reportScanStarted, Call.reportScanStarted, Call.reportScanFinished,
         Call.timerTimeout] = none) ∧
    (∀ build : QtBuild,
      runCalls build ProblemCollector.create
        [Call.reportScanStarted, Call.reportScanStarted, Call.reportScanFinished,
         Call.reportScanFinished, Call.timerTimeout] =
        some (ProblemCollector.create, [Signal.problemScansFinished])) := by
  refine ⟨?_, maybeEmitScansFinished_nonzero, by intro b; cases b <;> decide,
    by intro b; cases b <;> decide⟩
  intro build before x c1 c2 s1 sx h1 hx hm
  obtain ⟨ex, _, hz2, _⟩ := exec_emits c1 c2 x sx hx hm
  subst ex
  obtain ⟨_, _, _, hz⟩ := timerTimeout_some c1 c2 sx hx
  have hz1 := hz hm
  have hcount := runCalls_count before ProblemCollector.create c1 s1 h1
  refine ⟨rfl, hz1, hz2, ?_⟩
  rw [hz1] at hcount
  simp only [ProblemCollector.create, zero_add] at hcount
  omega

/-- Overlapping scans followed by an expiry; a state with one active scan emits nothing. -/
theorem scansFinished_only_at_zero_witness :
    (Call.timerTimeout = Call.timerTimeout ∧ (0 : Int) = 0 ∧ (0 : Int) = 0 ∧
      [Call.reportScanStarted, Call.reportScanStarted, Call.reportScanFinished,
        Call.reportScanFinished].count Call.reportScanStarted =
      [Call.reportScanStarted, Call.reportScanStarted, Call.reportScanFinished,
        Call.reportScanFinished].count Call.reportScanFinished) ∧
    maybeEmitScansFinished { ProblemCollector.create with m_runningScanCount := 1 } =
      ({ ProblemCollector.create with m_runningScanCount := 1 }, []) :=
  ⟨scansFinished_only_at_zero.1 QtBuild.release
      [Call.reportScanStarted, Call.reportScanStarted, Call.reportScanFinished,
        Call.reportScanFinished]
      Call.timerTimeout
      { ProblemCollector.create with
        m_reportFinishedTimer := { singleShot := true, interval := 10, active := true } }
      ProblemCollector.create [] [Signal.problemScansFinished]
      (by decide) (by decide) (by decide),
   scansFinished_only_at_zero.2.1
      { ProblemCollector.create with m_runningScanCount := 1 } (by decide)⟩

theorem purgeSignals_noScan (l : List Problem) :
    ∀ a : Nat, (∀ p ∈ l, p.findingCategory ≠ FindingCategory.Scan) →
      purgeSignals a 0 l = [] := by
  induction l with
  | nil => intro a _; rfl
  | cons p l ih =>
    intro a h
    have hp : p.isScan = false := by
      simpa [Problem.isScan] using h p (List.mem_cons_self _ _)
    have := ih (a + 1) (fun q hq => h q (List.mem_cons_of_mem _ hq))
    simp [purgeSignals, hp, pendingFlush, this]

theorem withoutScan_noScan (l : List Problem)
    (h : ∀ p ∈ l, p.findingCategory ≠ FindingCategory.Scan) : withoutScan l = l := by
  unfold withoutScan
  rw [List.filter_eq_self]
  intro p hp
  simpa [Problem.isScan] using h p hp

theorem requestScan_noScan (self : ProblemCollector)
    (h : ∀ p ∈ self.m_problems, p.findingCategory ≠ FindingCategory.Scan) :
    requestScan self = some (self, [Signal.problemScanRequested]) := by
  rw [requestScan_eq, purgeSignals_noScan _ 0 h, withoutScan_noScan _ h]
  rfl

theorem withoutScan_findingCategory (l : List Problem) :
    ∀ p ∈ withoutScan l, p.findingCategory ≠ FindingCategory.Scan := by
  intro p hp
  unfold withoutScan at hp
  have := (List.mem_filter.mp hp).2
  simpa [Problem.isScan] using this

theorem not_scanRequested_mem_removalSignals (runs : List (Int × Int)) :
    Signal.problemScanRequested ∉ removalSignals runs := by
  simp [removalSignals, removalPair, List.mem_flatMap]

/-- C12: `requestScan` emits `problemScanRequested` exactly once, as its last signal, all
signals before it being the removal pairs; when no stored problem is Scan-tagged (the empty
registry included) the collector is unchanged and `problemScanRequested` is the only
signal. -/
theorem requestScan_scanRequested_last :
    (∀ self : ProblemCollector, ∃ (self' : ProblemCollector) (notifs : List (Int × Int)),
      requestScan self =
        some (self', removalSignals notifs ++ [Signal.problemScanRequested]) ∧
      Signal.problemScanRequested ∉ removalSignals notifs ∧
      (removalSignals notifs ++ [Signal.problemScanRequested]).count
        Signal.problemScanRequested = 1) ∧
    (∀ self : ProblemCollector,
      (∀ p ∈ self.m_problems, p.findingCategory ≠ FindingCategory.Scan) →
      requestScan self = some (self, [Signal.problemScanRequested])) ∧
    requestScan ProblemCollector.create =
      some (ProblemCollector.create, [Signal.problemScanRequested]) := by
  refine ⟨?_, requestScan_noScan, by decide⟩
  intro self
  refine ⟨{ self with m_problems := withoutScan self.m_problems },
    expectedRemovals self.m_problems, ?_, not_scanRequested_mem_removalSignals _, ?_⟩
  · rw [requestScan_eq, purgeSignals_eq_expected]
  · rw [List.count_append, List.count_eq_zero_of_not_mem
      (not_scanRequested_mem_removalSignals _)]
    rfl

/-- A registry holding only ad hoc problems is left alone by `requestScan`. -/
theorem requestScan_scanRequested_last_witness :
    requestScan
        { ProblemCollector.create with
          m_problems :=
            [{ problemId := "a", findingCategory := FindingCategory.Adhoc,
               description := "" }] } =
      some ({ ProblemCollector.create with
              m_problems :=
                [{ problemId := "a", findingCategory := FindingCategory.Adhoc,
                   description := "" }] },
        [Signal.problemScanRequested]) :=
  requestScan_scanRequested_last.2.1 _ (by decide)

theorem addProblem_fresh (self : ProblemCollector) (p : Problem) (h : p ∉ self.m_problems) :
    addProblem self p =
      ({ self with m_problems := self.m_problems ++ [p] },
        [Signal.aboutToAddProblem (self.m_problems.length : Int), Signal.problemAdded]) := by
  unfold addProblem
  rw [if_neg h]

theorem addProblem_stored (self : ProblemCollector) (p : Problem) (h : p ∈ self.m_problems) :
    addProblem self p = (self, []) := by
  unfold addProblem
  rw [if_pos h]

theorem mem_addProblem (self : ProblemCollector) (p : Problem) :
    p ∈ (addProblem self p).1.m_problems := by
  by_cases h : p ∈ self.m_problems
  · rw [addProblem_stored self p h]; exact h
  · rw [addProblem_fresh self p h]; simp

/-- C13: on a registry not containing `p`, two `addProblem p` calls leave exactly one
stored element equal to `p` and emit exactly one `problemAdded` between them; on every
registry the second call changes nothing and emits nothing, so two calls give the same
collector as one. -/
theorem addProblem_twice :
    (∀ (self : ProblemCollector) (p : Problem), p ∉ self.m_problems →
      (addProblem (addProblem self p).1 p).1.m_problems.count p = 1 ∧
      ((addProblem self p).2 ++ (addProblem (addProblem self p).1 p).2).count
        Signal.problemAdded = 1) ∧
    (∀ (self : ProblemCollector) (p : Problem),
      addProblem (addProblem self p).1 p = ((addProblem self p).1, [])) := by
  have hsecond : ∀ (self : ProblemCollector) (p : Problem),
      addProblem (addProblem self p).1 p = ((addProblem self p).1, []) :=
    fun self p => addProblem_stored _ p (mem_addProblem self p)
  refine ⟨?_, hsecond⟩
  intro self p h
  rw [hsecond self p, addProblem_fresh self p h]
  constructor
  · show (self.m_problems ++ [p]).count p = 1
    rw [List.count_append, List.count_eq_zero_of_not_mem h]
    simp
  · simp

/-- Adding a problem `"f"` twice to the example registry. -/
theorem addProblem_twice_witness :
    (addProblem (addProblem exampleRegistry
        { problemId := "f", findingCategory := FindingCategory.Adhoc, description := "" }).1
        { problemId := "f", findingCategory := FindingCategory.Adhoc,
          description := "" }).1.m_problems.count
        { problemId := "f", findingCategory := FindingCategory.Adhoc, description := "" } = 1 ∧
    ((addProblem exampleRegistry
        { problemId := "f", findingCategory := FindingCategory.Adhoc, description := "" }).2 ++
      (addProblem (addProblem exampleRegistry
        { problemId := "f", findingCategory := FindingCategory.Adhoc, description := "" }).1
        { problemId := "f", findingCategory := FindingCategory.Adhoc,
          description := "" }).2).count Signal.problemAdded = 1 :=
  addProblem_twice.1 exampleRegistry
    { problemId := "f", findingCategory := FindingCategory.Adhoc, description := "" }
    (by decide)

theorem runCalls_addProblem_all {build : QtBuild} (L : List Problem) :
    ∀ self : ProblemCollector, (self.m_problems ++ L).Nodup →
      ∃ sigs, runCalls build self (L.map Call.addProblem) =
        some ({ self with m_problems := self.m_problems ++ L }, sigs) := by
  induction L with
  | nil =>
    intro self _
    refine ⟨[], ?_⟩
    simp [runCalls]
  | cons p L ih =>
    intro self h
    have hp : p ∉ self.m_problems := by
      intro hm
      have := (List.nodup_append.mp h).2.2
      exact this hm (List.mem_cons_self _ _)
    have hn : ((self.m_problems ++ [p]) ++ L).Nodup := by
      simpa using h
    obtain ⟨sigs, hs⟩ := ih { self with m_problems := self.m_problems ++ [p] } hn
    refine ⟨[Signal.aboutToAddProblem (self.m_problems.length : Int), Signal.problemAdded] ++
      sigs, ?_⟩
    rw [List.map_cons, runCalls_cons self (Call.addProblem p) (L.map Call.addProblem) _ _
      (by rw [Call.exec, addProblem_fresh self p hp]), hs]
    simp

/-- C14: calling `addProblem` on the elements of a list of pairwise distinct problems, in
order, from the empty registry, makes `problems()` that list; for three distinct problems
`P1, P2, P3` the result is `[P1, P2, P3]`. -/
theorem addProblem_keeps_order :
    (∀ (build : QtBuild) (L : List Problem), L.Nodup →
      ∃ (self : ProblemCollector) (sigs : List Signal),
        runCalls build ProblemCollector.create (L.map Call.addProblem) = some (self, sigs) ∧
        self.problems = L) ∧
    (∀ (build : QtBuild) (P1 P2 P3 : Problem), P1 ≠ P2 → P1 ≠ P3 → P2 ≠ P3 →
      ∃ (self : ProblemCollector) (sigs : List Signal),
        runCalls build ProblemCollector.create
          [Call.addProblem P1, Call.addProblem P2, Call.addProblem P3] = some (self, sigs) ∧
        self.problems = [P1, P2, P3]) := by
  have hall : ∀ (build : QtBuild) (L : List Problem), L.Nodup →
      ∃ (self : ProblemCollector) (sigs : List Signal),
        runCalls build ProblemCollector.create (L.map Call.addProblem) = some (self, sigs) ∧
        self.problems = L := by
    intro build L hL
    obtain ⟨sigs, hs⟩ := runCalls_addProblem_all L ProblemCollector.create
      (by simpa [ProblemCollector.create] using hL)
    exact ⟨_, sigs, hs, by simp [ProblemCollector.problems, ProblemCollector.create]⟩
  refine ⟨hall, ?_⟩
  intro build P1 P2 P3 h12 h13 h23
  exact hall build [P1, P2, P3] (by simp [h12, h13, h23])

/-- Three problems of the example registry added to the empty registry. -/
theorem addProblem_keeps_order_witness :
    ∃ (self : ProblemCollector) (sigs : List Signal),
      runCalls QtBuild.release ProblemCollector.create
        [Call.addProblem
           { problemId := "P1", findingCategory := FindingCategory.Adhoc, description := "" },
         Call.addProblem
           { problemId := "P2", findingCategory := FindingCategory.Scan, description := "" },
         Call.addProblem
           { problemId := "P3", findingCategory := FindingCategory.Adhoc, description := "" }] =
        some (self, sigs) ∧
      self.problems =
        [{ problemId := "P1", findingCategory := FindingCategory.Adhoc, description := "" },
         { problemId := "P2", findingCategory := FindingCategory.Scan, description := "" },
         { problemId := "P3", findingCategory := FindingCategory.Adhoc, description := "" }] :=
  addProblem_keeps_order.1 QtBuild.release
    [{ problemId := "P1", findingCategory := FindingCategory.Adhoc, description := "" },
     { problemId := "P2", findingCategory := FindingCategory.Scan, description := "" },
     { problemId := "P3", findingCategory := FindingCategory.Adhoc, description := "" }]
    (by decide)

/-- C18: `removeProblem` does not make the identifier absent. Two problems with the same
`problemId` and different descriptions are both accepted by `addProblem` from the empty
registry (they are not value-equal), and after one `removeProblem` of that identifier the
later-inserted one is still stored. -/
theorem removeProblem_leaves_later_duplicate_id :
    ∃ (p1 p2 : Problem) (self : ProblemCollector) (sigs : List Signal),
      p1.problemId = p2.problemId ∧ p1 ≠ p2 ∧
      (∀ build : QtBuild,
        runCalls build ProblemCollector.create [Call.addProblem p1, Call.addProblem p2] =
          some (self, sigs)) ∧
      self.m_problems = [p1, p2] ∧
      (removeProblem self p1.problemId).1.m_problems = [p2] ∧
      (∃ q ∈ (removeProblem self p1.problemId).1.m_problems, q.problemId = p1.problemId) :=
  ⟨{ problemId := "a", findingCategory := FindingCategory.Adhoc, description := "first" },
   { problemId := "a", findingCategory := FindingCategory.Adhoc, description := "second" },
   { ProblemCollector.create with
     m_problems :=
       [{ problemId := "a", findingCategory := FindingCategory.Adhoc, description := "first" },
        { problemId := "a", findingCategory := FindingCategory.Adhoc,
          description := "second" }] },
   [Signal.aboutToAddProblem 0, Signal.problemAdded,
    Signal.aboutToAddProblem 1, Signal.problemAdded],
   by decide, by decide, by intro b; cases b <;> decide, by decide, by decide,
   ⟨{ problemId := "a", findingCategory := FindingCategory.Adhoc, description := "second" },
    by decide, by decide⟩⟩

/-- C19: `requestScan` is idempotent on the registry: after one call no stored problem is
Scan-tagged, and a second call right after it leaves the collector unchanged and emits
only `problemScanRequested`. -/
theorem requestScan_idempotent (self : ProblemCollector) :
    ∃ (self' : ProblemCollector) (sigs : List Signal),
      requestScan self = some (self', sigs) ∧
      (∀ p ∈ self'.m_problems, p.findingCategory ≠ FindingCategory.Scan) ∧
      requestScan self' = some (self', [Signal.problemScanRequested]) := by
  refine ⟨{ self with m_problems := withoutScan self.m_problems },
    purgeSignals 0 0 self.m_problems ++ [Signal.problemScanRequested],
    requestScan_eq self, withoutScan_findingCategory _, ?_⟩
  exact requestScan_noScan _ (withoutScan_findingCategory _)

theorem fire_active (t : QTimer) (h : t.fire.active = true) : t.active = true := by
  unfold QTimer.fire at h
  by_cases hs : t.singleShot = true
  · rw [if_pos hs] at h
    cases h
  · rw [if_neg hs] at h
    exact h

theorem exec_pending (self self1 : ProblemCollector) (c : Call) (sigs : List Signal)
    (h : c.exec QtBuild.debug self = some (self1, sigs))
    (hinv : self.m_reportFinishedTimer.active = true → self.m_runningScanCount = 0) :
    self1.m_reportFinishedTimer.active = true → self1.m_runningScanCount = 0 := by
  cases c with
  | addProblem p =>
    obtain ⟨e1, e2, _⟩ := exec_registry_frame self self1 (Call.addProblem p) sigs rfl h
    rw [e1, e2]; exact hinv
  | removeProblem pid =>
    obtain ⟨e1, e2, _⟩ := exec_registry_frame self self1 (Call.removeProblem pid) sigs rfl h
    rw [e1, e2]; exact hinv
  | requestScan =>
    obtain ⟨e1, e2, _⟩ := exec_registry_frame self self1 Call.requestScan sigs rfl h
    rw [e1, e2]; exact hinv
  | reportScanStarted =>
    simp only [Call.exec, reportScanStarted, Option.some.injEq, Prod.mk.injEq] at h
    obtain ⟨h1, _⟩ := h
    subst h1
    intro ha
    simp [QTimer.stop] at ha
  | reportScanFinished =>
    obtain ⟨hpos, _, _, _, ht⟩ := reportScanFinished_some self self1 sigs h
    have hpos := hpos rfl
    rcases ht with hz | ht
    · exact fun _ => hz
    · intro ha
      rw [ht] at ha
      have := hinv ha
      rw [this] at hpos
      exact absurd hpos (by decide)
  | timerTimeout =>
    obtain ⟨_, e1, e2, _⟩ := timerTimeout_some self self1 sigs h
    intro ha
    rw [e2] at ha
    rw [e1]
    exact hinv (fire_active _ ha)

theorem runCalls_pending (calls : List Call) :
    ∀ (self self' : ProblemCollector) (sigs : List Signal),
      runCalls QtBuild.debug self calls = some (self', sigs) →
      (self.m_reportFinishedTimer.active = true → self.m_runningScanCount = 0) →
      (self'.m_reportFinishedTimer.active = true → self'.m_runningScanCount = 0) := by
  induction calls with
  | nil =>
    intro self self' sigs h hinv
    simp only [runCalls, Option.some.injEq, Prod.mk.injEq] at h
    obtain ⟨h1, _⟩ := h
    subst h1
    exact hinv
  | cons c cs ih =>
    intro self self' sigs h hinv
    obtain ⟨self1, sigs1, sigs2, hc, hcs, _⟩ := runCalls_cons_some self c cs self' sigs h
    exact ih self1 self' sigs2 hcs (exec_pending self self1 c sigs1 hc hinv)

theorem timerTimeout_emits (self : ProblemCollector)
    (ha : self.m_reportFinishedTimer.active = true) (hz : self.m_runningScanCount = 0) :
    timerTimeout self =
      some ({ self with m_reportFinishedTimer := self.m_reportFinishedTimer.fire },
        [Signal.problemScansFinished]) := by
  unfold timerTimeout
  rw [if_pos ha]
  unfold maybeEmitScansFinished
  rw [if_pos hz]

/-- C17: take a call sequence from the initial state in which `reportScanFinished` is only
called with a positive count, that is, one that a build with the assertion active runs
through. Every build runs it to the same state, and in that state the deferred timer is
pending only if the active-scan count is zero; hence a timer expiry, which can happen only
while the timer is pending, finds the `count == 0` guard of `maybeEmitScansFinished` true
and emits `problemScansFinished`. -/
theorem timer_pending_only_at_zero (calls : List Call) (self : ProblemCollector)
    (sigs : List Signal)
    (h : runCalls QtBuild.debug ProblemCollector.create calls = some (self, sigs)) :
    (∀ build : QtBuild, runCalls build ProblemCollector.create calls = some (self, sigs)) ∧
    (self.m_reportFinishedTimer.active = true → self.m_runningScanCount = 0) ∧
    (self.m_reportFinishedTimer.active = true →
      timerTimeout self =
        some ({ self with m_reportFinishedTimer := self.m_reportFinishedTimer.fire },
          [Signal.problemScansFinished])) ∧
    (∀ (self' : ProblemCollector) (emitted : List Signal),
      timerTimeout self = some (self', emitted) →
      emitted = [Signal.problemScansFinished]) := by
  have hinv := runCalls_pending calls ProblemCollector.create self sigs h
    (fun ha => absurd ha (by decide))
  refine ⟨fun build => runCalls_of_debug build calls _ _ h, hinv,
    fun ha => timerTimeout_emits self ha (hinv ha), ?_⟩
  intro self' emitted ht
  obtain ⟨ha, _, _, _⟩ := timerTimeout_some self self' emitted ht
  rw [timerTimeout_emits self ha (hinv ha)] at ht
  simp only [Option.some.injEq, Prod.mk.injEq] at ht
  exact ht.2.symm

/-- After one start and one finish the timer is pending with a count of zero, and its
expiry emits the signal. -/
theorem timer_pending_only_at_zero_witness :
    timerTimeout
        { ProblemCollector.create with
          m_reportFinishedTimer := { singleShot := true, interval := 10, active := true } } =
      some (ProblemCollector.create, [Signal.problemScansFinished]) :=
  (timer_pending_only_at_zero [Call.reportScanStarted, Call.reportScanFinished]
    { ProblemCollector.create with
      m_reportFinishedTimer := { singleShot := true, interval := 10, active := true } }
    [] (by decide)).2.2.1 (by decide)

/-! ### The purge loop step by step -/

theorem isScanAt_lt (l : List Problem) (i : Nat) (h : isScanAt l i = true) :
    i < l.length := by
  unfold isScanAt at h
  by_contra hn
  have : l.get? i = none := by
    rw [List.get?_eq_none]
    omega
  rw [this] at h
  cases h

theorem length_eraseRange (l : List Problem) (first last : Nat)
    (h1 : first ≤ last) (h2 : last ≤ l.length) :
    (eraseRange l first last).length = first + (l.length - last) := by
  unfold eraseRange
  rw [List.length_append, List.length_take, List.length_drop]
  omega

theorem isScanAt_eraseRange (l : List Problem) (first last i : Nat)
    (hi : i < first) (h2 : first ≤ l.length) :
    isScanAt (eraseRange l first last) i = isScanAt l i := by
  unfold isScanAt eraseRange
  have : (l.take first ++ l.drop last).get? i = l.get? i := by
    rw [List.get?_eq_getElem?, List.get?_eq_getElem?,
      List.getElem?_append_left (by rw [List.length_take]; omega),
      List.getElem?_take_of_lt hi]
  rw [this]

theorem requestScanStep_cases (s : ScanLoop)
    (h1 : s.firstToDeleteIt ≤ s.it) (h2 : s.it ≤ s.m_problems.length) :
    (s.it < s.m_problems.length ∧ isScanAt s.m_problems s.it = true ∧
      requestScanStep s = some { s with it := s.it + 1 }) ∨
    (s.firstToDeleteIt < s.it ∧ isScanAt s.m_problems s.it = false ∧
      requestScanStep s =
        some { m_problems := eraseRange s.m_problems s.firstToDeleteIt s.it
               firstToDeleteIt := s.firstToDeleteIt
               it := s.firstToDeleteIt
               emitted := s.emitted ++
                 removalPair (s.firstToDeleteIt : Int)
                   ((s.it : Int) - (s.firstToDeleteIt : Int)) }) ∨
    (s.firstToDeleteIt = s.it ∧ s.it < s.m_problems.length ∧
      isScanAt s.m_problems s.it = false ∧
      requestScanStep s =
        some { s with it := s.it + 1, firstToDeleteIt := s.firstToDeleteIt + 1 }) ∨
    (s.firstToDeleteIt = s.it ∧ s.it = s.m_problems.length ∧ requestScanStep s = none) := by
  by_cases hscan : isScanAt s.m_problems s.it = true
  · have hlt := isScanAt_lt _ _ hscan
    exact Or.inl ⟨hlt, hscan, requestScanStep_advance s (by omega) hscan⟩
  · have hfalse : isScanAt s.m_problems s.it = false := by
      simpa using hscan
    have hnot : ¬ (s.it ≠ s.m_problems.length ∧ isScanAt s.m_problems s.it = true) :=
      fun h => hscan h.2
    by_cases hfd : s.firstToDeleteIt = s.it
    · by_cases hend : s.it = s.m_problems.length
      · exact Or.inr (Or.inr (Or.inr ⟨hfd, hend, requestScanStep_break s hfd hend⟩))
      · exact Or.inr (Or.inr (Or.inl
          ⟨hfd, by omega, hfalse, requestScanStep_skip s hnot hfd hend⟩))
    · exact Or.inr (Or.inl ⟨by omega, hfalse, requestScanStep_erase s hnot hfd⟩)

theorem requestScanStep_eq_none (s : ScanLoop) :
    requestScanStep s = none ↔
      s.it = s.m_problems.length ∧ s.firstToDeleteIt = s.it := by
  constructor
  · intro h
    unfold requestScanStep at h
    by_cases c1 : s.it ≠ s.m_problems.length ∧ isScanAt s.m_problems s.it = true
    · rw [if_pos c1] at h; cases h
    · rw [if_neg c1] at h
      by_cases c2 : s.firstToDeleteIt ≠ s.it
      · rw [if_pos c2] at h; cases h
      · rw [if_neg c2] at h
        by_cases c3 : s.it ≠ s.m_problems.length
        · rw [if_pos c3] at h; cases h
        · exact ⟨not_not.mp c3, not_not.mp c2⟩
  · intro h
    exact requestScanStep_break s h.2 h.1

theorem requestScanStep_measure (s s' : ScanLoop)
    (h1 : s.firstToDeleteIt ≤ s.it) (h2 : s.it ≤ s.m_problems.length)
    (h : requestScanStep s = some s') :
    (s'.m_problems.length < s.m_problems.length ∨
      (s'.m_problems.length = s.m_problems.length ∧
        s'.m_problems.length - s'.it < s.m_problems.length - s.it)) ∧
    s'.firstToDeleteIt ≤ s'.it ∧ s'.it ≤ s'.m_problems.length := by
  rcases requestScanStep_cases s h1 h2 with ⟨hlt, _, e⟩ | ⟨hlt, _, e⟩ | ⟨hfd, hlt, _, e⟩ |
    ⟨_, _, e⟩
  · rw [e] at h
    cases h
    refine ⟨Or.inr ⟨rfl, ?_⟩, ?_, ?_⟩
    · show s.m_problems.length - (s.it + 1) < s.m_problems.length - s.it
      omega
    · show s.firstToDeleteIt ≤ s.it + 1
      omega
    · show s.it + 1 ≤ s.m_problems.length
      omega
  · rw [e] at h
    cases h
    have hl := length_eraseRange s.m_problems s.firstToDeleteIt s.it h1 h2
    refine ⟨Or.inl ?_, Nat.le_refl _, ?_⟩
    · show (eraseRange s.m_problems s.firstToDeleteIt s.it).length < s.m_problems.length
      omega
    · show s.firstToDeleteIt ≤ (eraseRange s.m_problems s.firstToDeleteIt s.it).length
      omega
  · rw [e] at h
    cases h
    refine ⟨Or.inr ⟨rfl, ?_⟩, ?_, ?_⟩
    · show s.m_problems.length - (s.it + 1) < s.m_problems.length - s.it
      omega
    · show s.firstToDeleteIt + 1 ≤ s.it + 1
      omega
    · show s.it + 1 ≤ s.m_problems.length
      omega
  · rw [e] at h
    cases h

theorem requestScanLoop_start (l : List Problem) (fuel : Nat)
    (h : 2 * l.length + 2 ≤ fuel) :
    requestScanLoop fuel (ScanLoop.start l) =
      some { m_problems := withoutScan l
             firstToDeleteIt := (withoutScan l).length
             it := (withoutScan l).length
             emitted := purgeSignals 0 0 l } := by
  have := requestScanLoop_spec l [] [] [] fuel (by simp) h
  simp only [List.nil_append, List.length_nil, Nat.add_zero] at this
  exact this

/-- C15: the two-cursor loop of `requestScan` terminates on every sequence. With ordered
cursors inside the vector, an iteration advances the probe, or erases a non-empty range,
or advances both cursors, or exits; a step that does not exit shortens the vector or keeps
its length and shortens the distance from the probe to the end, and keeps the cursors
ordered; the loop exits exactly when the probe is at the end and no run is pending; and
from the entry state any budget of at least `2 * size + 2` iterations reaches the exit. -/
theorem requestScan_loop_terminates :
    (∀ s : ScanLoop, s.firstToDeleteIt ≤ s.it → s.it ≤ s.m_problems.length →
      (s.it < s.m_problems.length ∧ isScanAt s.m_problems s.it = true ∧
        requestScanStep s = some { s with it := s.it + 1 }) ∨
      (s.firstToDeleteIt < s.it ∧ isScanAt s.m_problems s.it = false ∧
        requestScanStep s =
          some { m_problems := eraseRange s.m_problems s.firstToDeleteIt s.it
                 firstToDeleteIt := s.firstToDeleteIt
                 it := s.firstToDeleteIt
                 emitted := s.emitted ++
                   removalPair (s.firstToDeleteIt : Int)
                     ((s.it : Int) - (s.firstToDeleteIt : Int)) }) ∨
      (s.firstToDeleteIt = s.it ∧ s.it < s.m_problems.length ∧
        isScanAt s.m_problems s.it = false ∧
        requestScanStep s =
          some { s with it := s.it + 1, firstToDeleteIt := s.firstToDeleteIt + 1 }) ∨
      (s.firstToDeleteIt = s.it ∧ s.it = s.m_problems.length ∧ requestScanStep s = none)) ∧
    (∀ s s' : ScanLoop, s.firstToDeleteIt ≤ s.it → s.it ≤ s.m_problems.length →
      requestScanStep s = some s' →
      (s'.m_problems.length < s.m_problems.length ∨
        (s'.m_problems.length = s.m_problems.length ∧
          s'.m_problems.length - s'.it < s.m_problems.length - s.it)) ∧
      s'.firstToDeleteIt ≤ s'.it ∧ s'.it ≤ s'.m_problems.length) ∧
    (∀ s : ScanLoop, requestScanStep s = none ↔
      s.it = s.m_problems.length ∧ s.firstToDeleteIt = s.it) ∧
    (∀ (l : List Problem) (fuel : Nat), 2 * l.length + 2 ≤ fuel →
      ∃ s : ScanLoop, requestScanLoop fuel (ScanLoop.start l) = some s ∧
        requestScanStep s = none) := by
  refine ⟨requestScanStep_cases, requestScanStep_measure, requestScanStep_eq_none, ?_⟩
  intro l fuel h
  refine ⟨_, requestScanLoop_start l fuel h, ?_⟩
  exact requestScanStep_break _ rfl rfl

/-- On the example registry: the step from the state with a pending run erases it and
shortens the vector, and twelve iterations are enough for the loop to exit. -/
theorem requestScan_loop_terminates_witness :
    ((exampleLoopErased.m_problems.length < exampleLoopState.m_problems.length ∨
        (exampleLoopErased.m_problems.length = exampleLoopState.m_problems.length ∧
          exampleLoopErased.m_problems.length - exampleLoopErased.it <
            exampleLoopState.m_problems.length - exampleLoopState.it)) ∧
      exampleLoopErased.firstToDeleteIt ≤ exampleLoopErased.it ∧
      exampleLoopErased.it ≤ exampleLoopErased.m_problems.length) ∧
    (∃ s : ScanLoop,
      requestScanLoop 12 (ScanLoop.start exampleRegistry.m_problems) = some s ∧
        requestScanStep s = none) :=
  ⟨requestScan_loop_terminates.2.1 exampleLoopState exampleLoopErased
      (by decide) (by decide) (by decide),
   requestScan_loop_terminates.2.2.2 exampleRegistry.m_problems 12 (by decide)⟩

theorem invariant_start (l : List Problem) : (ScanLoop.start l).invariant := by
  refine ⟨Nat.le_refl _, Nat.zero_le _, ?_, ?_⟩
  · intro i hi
    exact absurd hi (Nat.not_lt_zero i)
  · intro i _ hi
    exact absurd hi (Nat.not_lt_zero i)

theorem requestScanStep_invariant (s s' : ScanLoop) (hinv : s.invariant)
    (h : requestScanStep s = some s') : s'.invariant := by
  obtain ⟨h1, h2, hbefore, hrun⟩ := hinv
  rcases requestScanStep_cases s h1 h2 with ⟨hlt, hscan, e⟩ | ⟨hlt, _, e⟩ |
    ⟨hfd, hlt, hscan, e⟩ | ⟨_, _, e⟩
  · rw [e] at h
    cases h
    refine ⟨Nat.le_succ_of_le h1, hlt, hbefore, ?_⟩
    intro i hi1 hi2
    by_cases hi : i = s.it
    · rw [hi]; exact hscan
    · exact hrun i hi1 (by
        have : i < s.it + 1 := hi2
        omega)
  · rw [e] at h
    cases h
    have hl := length_eraseRange s.m_problems s.firstToDeleteIt s.it h1 h2
    refine ⟨Nat.le_refl _, ?_, ?_, ?_⟩
    · show s.firstToDeleteIt ≤ (eraseRange s.m_problems s.firstToDeleteIt s.it).length
      omega
    · intro i hi
      have hi' : i < s.firstToDeleteIt := hi
      show isScanAt (eraseRange s.m_problems s.firstToDeleteIt s.it) i = false
      rw [isScanAt_eraseRange _ _ _ _ hi' (by omega)]
      exact hbefore i hi'
    · intro i hi1 hi2
      have a1 : s.firstToDeleteIt ≤ i := hi1
      have a2 : i < s.firstToDeleteIt := hi2
      omega
  · rw [e] at h
    cases h
    refine ⟨?_, ?_, ?_, ?_⟩
    · show s.firstToDeleteIt + 1 ≤ s.it + 1
      omega
    · exact hlt
    · intro i hi
      have hi' : i < s.firstToDeleteIt + 1 := hi
      by_cases hlast : i = s.it
      · rw [hlast]; exact hscan
      · exact hbefore i (by omega)
    · intro i hi1 hi2
      have a1 : s.firstToDeleteIt + 1 ≤ i := hi1
      have a2 : i < s.it + 1 := hi2
      omega
  · rw [e] at h
    cases h

theorem requestScanIterate_invariant (k : Nat) :
    ∀ s s' : ScanLoop, s.invariant → requestScanIterate k s = some s' → s'.invariant := by
  induction k with
  | zero =>
    intro s s' hinv h
    simp only [requestScanIterate, Option.some.injEq] at h
    rw [← h]; exact hinv
  | succ k ih =>
    intro s s' hinv h
    rw [requestScanIterate] at h
    cases hs : requestScanStep s with
    | none => rw [hs] at h; cases h
    | some s1 =>
      rw [hs] at h
      exact ih s1 s' (requestScanStep_invariant s s1 hinv hs) h

theorem requestScanStep_emits (s s' : ScanLoop) (hinv : s.invariant)
    (h : requestScanStep s = some s') (hne : s'.emitted ≠ s.emitted) :
    ∃ first count : Nat,
      s'.emitted = s.emitted ++
        [Signal.aboutToRemoveProblems (first : Int) (count : Int), Signal.problemsRemoved] ∧
      s'.m_problems = eraseRange s.m_problems first (first + count) ∧
      1 ≤ count ∧ first + count ≤ s.m_problems.length ∧
      (∀ i, first ≤ i → i < first + count → isScanAt s.m_problems i = true) ∧
      isScanAt s.m_problems (first + count) = false ∧
      (∀ i, i < first → isScanAt s.m_problems i = false) := by
  obtain ⟨h1, h2, hbefore, hrun⟩ := hinv
  rcases requestScanStep_cases s h1 h2 with ⟨_, _, e⟩ | ⟨hlt, hscan, e⟩ |
    ⟨_, _, _, e⟩ | ⟨_, _, e⟩
  · rw [e] at h
    cases h
    exact absurd rfl hne
  · rw [e] at h
    cases h
    have hsum : s.firstToDeleteIt + (s.it - s.firstToDeleteIt) = s.it := by omega
    refine ⟨s.firstToDeleteIt, s.it - s.firstToDeleteIt, ?_, ?_, by omega, by omega, ?_, ?_,
      hbefore⟩
    · show s.emitted ++ removalPair (s.firstToDeleteIt : Int)
          ((s.it : Int) - (s.firstToDeleteIt : Int)) = _
      rw [Int.ofNat_sub h1]
      rfl
    · show eraseRange s.m_problems s.firstToDeleteIt s.it = _
      rw [hsum]
    · intro i hi1 hi2
      exact hrun i hi1 (by omega)
    · rw [hsum]; exact hscan
  · rw [e] at h
    cases h
    exact absurd rfl hne
  · rw [e] at h
    cases h

theorem requestScanLoop_iterate (fuel : Nat) :
    ∀ s r : ScanLoop, requestScanLoop fuel s = some r →
      ∃ k, requestScanIterate k s = some r ∧ requestScanStep r = none := by
  induction fuel with
  | zero =>
    intro s r h
    cases h
  | succ fuel ih =>
    intro s r h
    rw [requestScanLoop] at h
    cases hs : requestScanStep s with
    | none =>
      rw [hs] at h
      simp only [Option.some.injEq] at h
      subst h
      exact ⟨0, rfl, hs⟩
    | some s1 =>
      rw [hs] at h
      obtain ⟨k, hk, hr⟩ := ih s1 r h
      refine ⟨k + 1, ?_, hr⟩
      rw [requestScanIterate, hs]
      exact hk

/-- C16: in every state the loop of `requestScan` reaches, the cursors satisfy
`begin <= firstToDelete <= probe <= end`; and whenever an iteration emits, it emits
`aboutToRemoveProblems (first, count)` then `problemsRemoved` and erases `[first,
first + count)`, where, in the sequence as it stands before the erase, `count >= 1`,
`first + count` is at most the size, every element of the range is Scan-tagged, the
element right after it (if any) is not, and no element before `first` is. The state in
which the loop ends is one of these states. -/
theorem requestScan_removal_in_range :
    (∀ (l : List Problem) (k : Nat) (s : ScanLoop),
      requestScanIterate k (ScanLoop.start l) = some s →
      (0 ≤ s.firstToDeleteIt ∧ s.firstToDeleteIt ≤ s.it ∧ s.it ≤ s.m_problems.length) ∧
      (∀ s' : ScanLoop, requestScanStep s = some s' → s'.emitted ≠ s.emitted →
        ∃ first count : Nat,
          s'.emitted = s.emitted ++
            [Signal.aboutToRemoveProblems (first : Int) (count : Int),
             Signal.problemsRemoved] ∧
          s'.m_problems = eraseRange s.m_problems first (first + count) ∧
          1 ≤ count ∧ first + count ≤ s.m_problems.length ∧
          (∀ i, first ≤ i → i < first + count → isScanAt s.m_problems i = true) ∧
          isScanAt s.m_problems (first + count) = false ∧
          (∀ i, i < first → isScanAt s.m_problems i = false))) ∧
    (∀ (l : List Problem) (fuel : Nat) (r : ScanLoop),
      requestScanLoop fuel (ScanLoop.start l) = some r →
      ∃ k, requestScanIterate k (ScanLoop.start l) = some r) := by
  constructor
  · intro l k s hk
    have hinv := requestScanIterate_invariant k _ s (invariant_start l) hk
    refine ⟨⟨Nat.zero_le _, hinv.1, hinv.2.1⟩, ?_⟩
    intro s' hs hne
    exact requestScanStep_emits s s' hinv hs hne
  · intro l fuel r h
    obtain ⟨k, hk, _⟩ := requestScanLoop_iterate fuel _ r h
    exact ⟨k, hk⟩

/-- On the example registry, the fourth iteration announces and erases the run `b, c`, and
the loop run with twelve iterations ends in a reached state. -/
theorem requestScan_removal_in_range_witness :
    (∃ first count : Nat,
      exampleLoopErased.emitted = exampleLoopState.emitted ++
        [Signal.aboutToRemoveProblems (first : Int) (count : Int), Signal.problemsRemoved] ∧
      exampleLoopErased.m_problems =
        eraseRange exampleLoopState.m_problems first (first + count) ∧
      1 ≤ count ∧ first + count ≤ exampleLoopState.m_problems.length ∧
      (∀ i, first ≤ i → i < first + count → isScanAt exampleLoopState.m_problems i = true) ∧
      isScanAt exampleLoopState.m_problems (first + count) = false ∧
      (∀ i, i < first → isScanAt exampleLoopState.m_problems i = false)) ∧
    (∃ k, requestScanIterate k (ScanLoop.start exampleRegistry.m_problems) =
      some { m_problems := withoutScan exampleRegistry.m_problems, firstToDeleteIt := 2, it := 2,
             emitted := [Signal.aboutToRemoveProblems 1 2, Signal.problemsRemoved,
                         Signal.aboutToRemoveProblems 2 1, Signal.problemsRemoved] }) :=
  ⟨(requestScan_removal_in_range.1 exampleRegistry.m_problems 3 exampleLoopState
      (by decide)).2 exampleLoopErased (by decide) (by decide),
   requestScan_removal_in_range.2 exampleRegistry.m_problems 12 _ (by decide)⟩

end GammaRay
